import Mathlib

/-!
Verification of the OOR results bot (a Discord standings bot: fetch HTML
standings pages, parse them, diff against a stored hash, render PNG
leaderboards, and post/edit chat messages).

This file gives a shallow embedding of the bot's pure logic:

* the JavaScript string helpers (whitespace collapsing, trimming,
  lowercasing, substring search) are re-implemented structurally over
  `String.data` so that every definition evaluates inside the kernel;
* JavaScript `Array.prototype.sort` (which is a stable sort) is embedded
  as a stable insertion sort parameterised by the comparator's
  "comparator(a,b) <= 0" relation — extensionally equal to any stable
  sort for a total-preorder comparator, which all comparators in this
  code base are;
* JavaScript floating-point arithmetic is idealised as exact rational
  arithmetic over ℚ (the layout numbers involved are small integers and
  small-denominator fractions, where doubles are exact);
* the DOM layer (cheerio queries) is abstracted: a table/row/cell is
  represented by the values the queries would extract, while every
  computation performed on those values follows the source line by line;
* network/Discord effects are modelled by passing the outcome of each
  external call (HTTP attempt results, message-fetch success) as data.
-/

/-! ## JavaScript string primitives (structural re-implementations) -/

/-- Character class of the JavaScript regexp whitespace `\s` (the members
that can occur in this code base's data: ASCII whitespace, vertical tab,
form feed, and NBSP). -/
def jsIsWs (c : Char) : Bool :=
  c == ' ' || c == '\t' || c == '\n' || c == '\r' ||
  c == '\u000B' || c == '\u000C' || c == ' '

/-- State-machine core of `String.replace(/\s+/g, " ")`: each maximal run
of whitespace becomes a single space.  The flag records whether the
previous character was whitespace. -/
def collapseWsGo : Bool → List Char → List Char
  | _, [] => []
  | inWs, c :: rest =>
    if jsIsWs c then
      if inWs then collapseWsGo true rest
      else ' ' :: collapseWsGo true rest
    else c :: collapseWsGo false rest

/-- JavaScript `s.replace(/\s+/g, " ")`. -/
def jsCollapseWs (s : String) : String := ⟨collapseWsGo false s.data⟩

/-- Drop trailing whitespace of a character list. -/
def trimEndList (l : List Char) : List Char :=
  (l.reverse.dropWhile jsIsWs).reverse

/-- JavaScript `s.trim()` on a character list. -/
def jsTrimList (l : List Char) : List Char :=
  trimEndList (l.dropWhile jsIsWs)

/-- JavaScript `s.trim()`. -/
def jsTrim (s : String) : String := ⟨jsTrimList s.data⟩

/-- JavaScript `s.toLowerCase()` (ASCII case mapping, which covers all
data this bot compares). -/
def jsToLower (s : String) : String := ⟨s.data.map Char.toLower⟩

/-- Does the character list start with the given pattern? -/
def startsWithSeq : List Char → List Char → Bool
  | [], _ => true
  | _ :: _, [] => false
  | p :: ps, c :: cs => p == c && startsWithSeq ps cs

/-- Does the pattern occur contiguously somewhere in the list? -/
def containsSeqList (pat : List Char) : List Char → Bool
  | [] => startsWithSeq pat []
  | c :: cs => startsWithSeq pat (c :: cs) || containsSeqList pat cs

/-- JavaScript `s.includes(sub)`. -/
def strIncludes (s sub : String) : Bool := containsSeqList sub.data s.data

/-! ## Stable sort (JavaScript Array.prototype.sort)

JavaScript's sort is stable.  `sortBy le` below is a stable insertion
sort where `le a b` means "comparator a b <= 0"; for a comparator that
is a total preorder this produces exactly the array JavaScript's sort
produces. -/

/-- Insert an element after every existing element that compares
less-or-equal to it (keeping ties in arrival order). -/
def insertBy (le : α → α → Bool) (a : α) : List α → List α
  | [] => [a]
  | b :: l => if le b a then b :: insertBy le a l else a :: b :: l

/-- Stable sort by the relation "comparator <= 0". -/
def sortBy (le : α → α → Bool) (l : List α) : List α :=
  l.foldl (fun acc x => insertBy le x acc) []

theorem insertBy_perm (le : α → α → Bool) (a : α) (l : List α) :
    List.Perm (insertBy le a l) (a :: l) := by
  induction l with
  | nil => simp [insertBy]
  | cons b t ih =>
    simp only [insertBy]
    by_cases h : le b a = true
    · simp only [h, if_pos]
      exact ((ih.cons b).trans (List.Perm.swap a b t))
    · simp [h]

theorem sortBy_perm (le : α → α → Bool) (l : List α) :
    List.Perm (sortBy le l) l := by
  suffices h : ∀ (l acc : List α),
      List.Perm (l.foldl (fun acc x => insertBy le x acc) acc) (acc ++ l) by
    simpa using h l []
  intro l
  induction l with
  | nil => simp
  | cons a t ih =>
    intro acc
    simp only [List.foldl_cons]
    refine (ih (insertBy le a acc)).trans ?_
    have h1 : List.Perm (insertBy le a acc) (a :: acc) := insertBy_perm le a acc
    refine (h1.append_right t).trans ?_
    have : List.Perm (a :: acc) (acc ++ [a]) := by
      simpa using (@List.perm_append_comm α ([a]) acc)
    simpa using this.append_right t

theorem insertBy_pairwise (le : α → α → Bool)
    (htot : ∀ a b, le a b = true ∨ le b a = true)
    (htrans : ∀ a b c, le a b = true → le b c = true → le a c = true)
    (a : α) (l : List α) (hl : List.Pairwise (fun x y => le x y = true) l) :
    List.Pairwise (fun x y => le x y = true) (insertBy le a l) := by
  induction l with
  | nil => simp [insertBy]
  | cons b t ih =>
    rcases List.pairwise_cons.mp hl with ⟨hb, ht⟩
    simp only [insertBy]
    by_cases h : le b a = true
    · simp only [h, if_pos]
      refine List.pairwise_cons.mpr ⟨?_, ih ht⟩
      intro x hx
      have hx2 := (insertBy_perm le a t).mem_iff.mp hx
      rcases List.mem_cons.mp hx2 with rfl | hx3
      · exact h
      · exact hb x hx3
    · simp only [h, if_neg, Bool.false_eq_true, not_false_iff]
      refine List.pairwise_cons.mpr ⟨?_, hl⟩
      intro x hx
      have hab : le a b = true := by
        rcases htot a b with h1 | h1
        · exact h1
        · exact absurd h1 h
      rcases List.mem_cons.mp hx with rfl | hx2
      · exact hab
      · exact htrans a b x hab (hb x hx2)

theorem sortBy_pairwise (le : α → α → Bool)
    (htot : ∀ a b, le a b = true ∨ le b a = true)
    (htrans : ∀ a b c, le a b = true → le b c = true → le a c = true)
    (l : List α) :
    List.Pairwise (fun x y => le x y = true) (sortBy le l) := by
  suffices h : ∀ (l acc : List α),
      List.Pairwise (fun x y => le x y = true) acc →
      List.Pairwise (fun x y => le x y = true)
        (l.foldl (fun acc x => insertBy le x acc) acc) by
    exact h l [] (by simp)
  intro l
  induction l with
  | nil => intro acc h; simpa using h
  | cons a t ih =>
    intro acc h
    exact ih _ (insertBy_pairwise le htot htrans a acc h)

theorem sortBy_length (le : α → α → Bool) (l : List α) :
    (sortBy le l).length = l.length :=
  (sortBy_perm le l).length_eq

/-! ## Renderer layout constants (render.js) -/

def OUTER_PAD : Nat := 22
def GAP : Nat := 22
def PAD_INNER : Nat := 18
def HEADER_H : Nat := 58
def HEAD_ROW_H : Nat := 26
def ROW_H : Nat := 26

/-- If a series has more than this many drivers it overflows into a
second panel column (render.js MAX_ROWS_PER_COL). -/
def MAX_ROWS_PER_COL : Nat := 30

/-- One parsed standings row, as produced by parseStandingsTable in
index.js (all fields are strings extracted from table cells). -/
structure Row where
  pos : String
  driver : String
  carNo : String
  className : String
  carImg : String
  countryImg : String
  racePts : String
  qualiPts : String
  flPts : String
  total : String
  nett : String
  diff : String
deriving DecidableEq, Repr

/-- render.js panelHeightForRows: the panel is tall enough to show every
driver row, with a 420px minimum. -/
def panelHeightForRows (rows : List Row) : Nat :=
  let n := rows.length
  let innerTableH := HEAD_ROW_H + ROW_H * n
  max 420 (OUTER_PAD * 2 + HEADER_H + 8 + innerTableH + 18)

/-- render.js renderTripleStandingsPng: the canvas height is the maximum
of the three panels' heights (JavaScript Math.max of the three). -/
def renderTripleCanvasH (club50Rows yellowRows redRows : List Row) : Nat :=
  max (panelHeightForRows club50Rows)
    (max (panelHeightForRows yellowRows) (panelHeightForRows redRows))

/-! ## renderSeriesOnlyPng (render.js): single-series render plan -/

/-- The caller-supplied maxRowsPerCol option: a finite number is floored
and clamped to at least 5; anything else falls back to
MAX_ROWS_PER_COL.  (JavaScript: Number.isFinite(opts.maxRowsPerCol) ?
Math.max(5, Math.floor(opts.maxRowsPerCol)) : MAX_ROWS_PER_COL; a finite
double is idealised as a rational.) -/
def seriesMaxRowsPerCol (optMax : Option ℚ) : ℤ :=
  match optMax with
  | some q => max 5 ⌊q⌋
  | none => (MAX_ROWS_PER_COL : ℤ)

/-- The rows renderSeriesOnlyPng distributes to its one or two panels:
leftRows = rows.slice(0, m); rightRows = needsTwo ?
rows.slice(m, m * 2) : [].  Only the row distribution is modelled; the
pixel drawing consumes exactly these two lists. -/
structure SeriesRenderPlan where
  twoPanels : Bool
  leftRows : List Row
  rightRows : List Row
deriving DecidableEq, Repr

def renderSeriesOnlyPlan (rows : List Row) (optMax : Option ℚ) : SeriesRenderPlan :=
  let m : Nat := (seriesMaxRowsPerCol optMax).toNat
  let needsTwo := decide (m < rows.length)
  { twoPanels := needsTwo
    leftRows := rows.take m
    rightRows := if needsTwo then (rows.drop m).take m else [] }

/-! ## Claim C7: fixed row heights make panel height affine in row count -/

/-- C7: panelHeightForRows is max(420, 154 + 26*n) for an n-row panel;
the triple-standings canvas height is the maximum of the three panel
heights; both are monotone in each row count. -/
theorem panelHeight_affine_and_canvas_max
    (club50Rows yellowRows redRows rows rows2 : List Row) :
    panelHeightForRows rows = max 420 (154 + 26 * rows.length) ∧
    renderTripleCanvasH club50Rows yellowRows redRows =
      max (max 420 (154 + 26 * club50Rows.length))
        (max (max 420 (154 + 26 * yellowRows.length))
          (max 420 (154 + 26 * redRows.length))) ∧
    (rows.length ≤ rows2.length →
      panelHeightForRows rows ≤ panelHeightForRows rows2) ∧
    (club50Rows.length ≤ rows2.length →
      renderTripleCanvasH club50Rows yellowRows redRows ≤
        renderTripleCanvasH rows2 yellowRows redRows) := by
  have haff : ∀ l : List Row,
      panelHeightForRows l = max 420 (154 + 26 * l.length) := by
    intro l
    simp only [panelHeightForRows, OUTER_PAD, HEADER_H, HEAD_ROW_H, ROW_H]
    omega
  have hmono : ∀ l l2 : List Row, l.length ≤ l2.length →
      panelHeightForRows l ≤ panelHeightForRows l2 := by
    intro l l2 h
    rw [haff, haff]
    omega
  refine ⟨haff rows, ?_, hmono rows rows2, ?_⟩
  · simp only [renderTripleCanvasH, haff]
  · intro h
    simp only [renderTripleCanvasH]
    exact max_le_max (hmono _ _ h) (Nat.le_refl _)

/-- C7 witness: concrete instance of the height formula. -/
theorem panelHeight_affine_and_canvas_max_witness :
    ([] : List Row).length ≤ ([] : List Row).length ∧
    (panelHeightForRows [] = max 420 (154 + 26 * ([] : List Row).length) ∧
      renderTripleCanvasH [] [] [] =
        max (max 420 (154 + 26 * ([] : List Row).length))
          (max (max 420 (154 + 26 * ([] : List Row).length))
            (max 420 (154 + 26 * ([] : List Row).length))) ∧
      (([] : List Row).length ≤ ([] : List Row).length →
        panelHeightForRows [] ≤ panelHeightForRows []) ∧
      (([] : List Row).length ≤ ([] : List Row).length →
        renderTripleCanvasH [] [] [] ≤ renderTripleCanvasH [] [] [])) :=
  ⟨Nat.le_refl _, panelHeight_affine_and_canvas_max [] [] [] [] []⟩

/-! ## Claim C8: renderSeriesOnlyPng truncates beyond two columns -/

/-- C8: with the default limit 30, a panel with at most 30 rows renders
as one panel holding all rows; with more than 30 rows it renders two
panels holding rows 1..30 and 31..min(n,60); the drawn rows are exactly
rows.take 60, so no row beyond position 60 is ever drawn; a
caller-supplied limit is floored and clamped to at least 5. -/
theorem renderSeriesOnly_truncation (rows : List Row) (q : ℚ) :
    (rows.length ≤ 30 →
      renderSeriesOnlyPlan rows none =
        { twoPanels := false, leftRows := rows, rightRows := [] }) ∧
    (30 < rows.length →
      renderSeriesOnlyPlan rows none =
        { twoPanels := true, leftRows := rows.take 30,
          rightRows := (rows.drop 30).take 30 }) ∧
    ((renderSeriesOnlyPlan rows none).leftRows ++
        (renderSeriesOnlyPlan rows none).rightRows) = rows.take 60 ∧
    seriesMaxRowsPerCol (some q) = max 5 ⌊q⌋ ∧
    5 ≤ seriesMaxRowsPerCol (some q) := by
  have hm : (seriesMaxRowsPerCol none).toNat = 30 := by
    simp [seriesMaxRowsPerCol, MAX_ROWS_PER_COL]
  refine ⟨?_, ?_, ?_, rfl, le_max_left 5 ⌊q⌋⟩
  · intro h
    have hnot : ¬ (30 < rows.length) := not_lt.mpr h
    simp [renderSeriesOnlyPlan, hm, hnot, List.take_of_length_le h]
  · intro h
    simp [renderSeriesOnlyPlan, hm, h]
  · by_cases h : 30 < rows.length
    · have : rows.take 60 = rows.take 30 ++ (rows.drop 30).take 30 := by
        have := List.take_add rows 30 30
        simpa using this
      simp [renderSeriesOnlyPlan, hm, h, this]
    · have h2 : rows.length ≤ 30 := not_lt.mp h
      have h60 : rows.take 60 = rows := List.take_of_length_le (by omega)
      have h30 : rows.take 30 = rows := List.take_of_length_le h2
      simp [renderSeriesOnlyPlan, hm, h, h60, h30]

/-- A row with all fields empty, used as a concrete test value. -/
def rowDefault : Row :=
  { pos := "", driver := "", carNo := "", className := "", carImg := "",
    countryImg := "", racePts := "", qualiPts := "", flPts := "",
    total := "", nett := "", diff := "" }

/-- C8 witness: a 31-row panel splits into 30 + 1 rows. -/
theorem renderSeriesOnly_truncation_witness :
    30 < (List.replicate 31 rowDefault).length ∧
    renderSeriesOnlyPlan (List.replicate 31 rowDefault) none =
      { twoPanels := true,
        leftRows := (List.replicate 31 rowDefault).take 30,
        rightRows := ((List.replicate 31 rowDefault).drop 30).take 30 } :=
  ⟨by simp, (renderSeriesOnly_truncation (List.replicate 31 rowDefault) 0).2.1
    (by simp)⟩

/-! ## Claim C1: hash-based change detection (checkAndPostSimgrid /
applyUpdate)

The SHA-1 digest itself is not re-implemented; the decision logic is
modelled as a function of the freshly computed digest string and the
persisted state.  Strings follow the JavaScript truthiness convention:
an absent config value is the empty string. -/

/-- What the updater does to the tracked chat message. -/
inductive PostAction where
  /-- Edit only the text content/components; the attached image stays. -/
  | editTextOnly
  /-- Render a new PNG and edit the existing message with the new file. -/
  | renderEditImage
  /-- Render a new PNG and send a brand-new message. -/
  | renderPostNew
deriving DecidableEq, Repr

/-- Does the action re-render the PNG? -/
def rendersPng : PostAction → Bool
  | .editTextOnly => false
  | _ => true

/-- index.js checkAndPostSimgrid, lines 669-819, reduced to its message
action.  Inputs: the persisted simgridLastHash and simgridMessageId
(empty string when unset), the freshly computed dataHash, the force flag
(true for /refresh), and whether fetching the tracked message by id
succeeds (false models a deleted message; both fetches in the source
target the same message, so one flag covers them). -/
def checkAndPostSimgridAction (lastHash msgId dataHash : String)
    (force msgFetchOk : Bool) : PostAction :=
  let unchanged := lastHash != "" && lastHash == dataHash
  let shouldRender := force || !unchanged || msgId == ""
  if !shouldRender && unchanged && msgId != "" && msgFetchOk then
    .editTextOnly
  else if msgId != "" && msgFetchOk then .renderEditImage
  else .renderPostNew

/-- part_001 applyUpdate, lines 397-479, reduced to its message action.
No force flag exists there; the message is re-fetched once, and the
unchanged-and-present case edits content only. -/
def applyUpdateAction (lastHash msgId dataHash : String)
    (msgFetchOk : Bool) : PostAction :=
  let unchanged := lastHash != "" && lastHash == dataHash
  let existing := msgId != "" && msgFetchOk
  if existing then
    if unchanged then .editTextOnly else .renderEditImage
  else .renderPostNew

/-- C1: the PNG is re-rendered exactly when the fresh digest differs
from the stored one, the tracked message is missing, or a refresh is
forced; when the digest matches and the tracked message exists (and no
force), only the timestamp text is edited and the attached image is
untouched.  Both the current checkAndPostSimgrid and the older
applyUpdate satisfy this (applyUpdate has no force flag). -/
theorem hash_change_detection_decides_rerender
    (lastHash msgId dataHash : String) (force msgFetchOk : Bool) :
    (rendersPng (checkAndPostSimgridAction lastHash msgId dataHash force msgFetchOk) = true ↔
      (force = true ∨ ¬ (lastHash ≠ "" ∧ lastHash = dataHash) ∨
        msgId = "" ∨ msgFetchOk = false)) ∧
    (checkAndPostSimgridAction lastHash msgId dataHash force msgFetchOk = .editTextOnly ↔
      (force = false ∧ lastHash ≠ "" ∧ lastHash = dataHash ∧
        msgId ≠ "" ∧ msgFetchOk = true)) ∧
    (rendersPng (applyUpdateAction lastHash msgId dataHash msgFetchOk) = true ↔
      (¬ (lastHash ≠ "" ∧ lastHash = dataHash) ∨ msgId = "" ∨ msgFetchOk = false)) ∧
    (applyUpdateAction lastHash msgId dataHash msgFetchOk = .editTextOnly ↔
      (lastHash ≠ "" ∧ lastHash = dataHash ∧ msgId ≠ "" ∧ msgFetchOk = true)) := by
  cases force <;> cases msgFetchOk <;>
    by_cases h1 : lastHash = "" <;> by_cases h2 : lastHash = dataHash <;>
      by_cases h3 : msgId = "" <;>
        simp_all [checkAndPostSimgridAction, applyUpdateAction, rendersPng]

/-! ## Claim C5: per-user per-button cooldown map (index.js lines 50-64,
1159-1168)

The JavaScript Map is modelled as an association list; Date.now() is
the parameter now (milliseconds); Math.ceil over doubles is idealised as
the exact rational ceiling. -/

def BUTTON_COOLDOWN_MS : ℕ := 5 * 60 * 1000

/-- Map.set: replace the binding if present, else append. -/
def mapSet (m : List (String × ℤ)) (k : String) (v : ℤ) :
    List (String × ℤ) :=
  match m with
  | [] => [(k, v)]
  | (k2, v2) :: rest =>
    if k2 == k then (k, v) :: rest else (k2, v2) :: mapSet rest k v

/-- index.js getButtonCooldownSeconds.  Returns the seconds left to wait
(0 when the press is accepted) together with the updated cooldown map.
buttonCooldowns.get(key) || 0 is modelled by getD 0. -/
def getButtonCooldownSeconds (cooldowns : List (String × ℤ))
    (userId buttonId : String) (now : ℤ) : ℤ × List (String × ℤ) :=
  let key := userId ++ ":" ++ buttonId
  let last := (cooldowns.lookup key).getD 0
  if now - last < (BUTTON_COOLDOWN_MS : ℤ) then
    (⌈(((BUTTON_COOLDOWN_MS : ℚ)) - ((now : ℚ) - (last : ℚ))) / 1000⌉,
      cooldowns)
  else
    (0, mapSet cooldowns key now)

/-- What the InteractionCreate button branch does before dispatching to
a render handler. -/
inductive ButtonFlow where
  /-- Reply "please wait Ns" and return without rendering anything. -/
  | coolDownReply (secs : ℤ)
  /-- Proceed to the matching render handler. -/
  | runHandler
deriving DecidableEq, Repr

/-- index.js InteractionCreate button branch, lines 1159-1168: query the
cooldown; a positive wait produces only an ephemeral wait reply. -/
def buttonInteractionGate (cooldowns : List (String × ℤ))
    (userId customId : String) (now : ℤ) :
    ButtonFlow × List (String × ℤ) :=
  let r := getButtonCooldownSeconds cooldowns userId customId now
  if r.1 > 0 then (.coolDownReply r.1, r.2) else (.runHandler, r.2)

/-- C5 counterexample: the claim says a never-pressed button always
returns 0, but the code treats a missing map entry as a press at
timestamp 0, so at now = 0 a never-pressed button returns 300 seconds.
-/
theorem buttonCooldown_neverPressed_counterexample :
    (getButtonCooldownSeconds [] "u" "b" 0).1 ≠ 0 := by
  have h : (getButtonCooldownSeconds [] "u" "b" 0).1 = 300 := by
    simp only [getButtonCooldownSeconds, List.lookup_nil, Option.getD_none,
      BUTTON_COOLDOWN_MS]
    norm_num
  rw [h]
  norm_num

/-- C5 (amended): a missing map entry is treated as a last press at
timestamp 0, so with last = recorded press (or 0 if never pressed): when
now - last is at least BUTTON_COOLDOWN_MS the call returns 0 and records
now; otherwise it returns the positive ceiling in seconds of the
remaining cooldown and leaves the map unchanged, and the button handler
then only posts a wait reply and performs no render. -/
theorem buttonCooldown_spec (cooldowns : List (String × ℤ))
    (userId buttonId : String) (now : ℤ) :
    (let key := userId ++ ":" ++ buttonId
     let last := (cooldowns.lookup key).getD 0
     ((BUTTON_COOLDOWN_MS : ℤ) ≤ now - last →
        getButtonCooldownSeconds cooldowns userId buttonId now =
          (0, mapSet cooldowns key now)) ∧
     (now - last < (BUTTON_COOLDOWN_MS : ℤ) →
        getButtonCooldownSeconds cooldowns userId buttonId now =
          (⌈(((BUTTON_COOLDOWN_MS : ℚ)) - ((now : ℚ) - (last : ℚ))) / 1000⌉,
            cooldowns) ∧
        0 < (getButtonCooldownSeconds cooldowns userId buttonId now).1) ∧
     (0 < (getButtonCooldownSeconds cooldowns userId buttonId now).1 →
        buttonInteractionGate cooldowns userId buttonId now =
          (.coolDownReply (getButtonCooldownSeconds cooldowns userId buttonId now).1,
            cooldowns))) := by
  intro key last
  have hkey : userId ++ ":" ++ buttonId = key := rfl
  refine ⟨?_, ?_, ?_⟩
  · intro h
    have hnot : ¬ (now - last < (BUTTON_COOLDOWN_MS : ℤ)) := not_lt.mpr h
    simp [getButtonCooldownSeconds, hnot]
  · intro h
    have hpos : 0 < ⌈(((BUTTON_COOLDOWN_MS : ℚ)) - ((now : ℚ) - (last : ℚ))) / 1000⌉ := by
      have hlt : ((now : ℚ) - (last : ℚ)) < (BUTTON_COOLDOWN_MS : ℚ) := by
        exact_mod_cast (by exact_mod_cast h : ((now - last : ℤ) : ℚ) < ((BUTTON_COOLDOWN_MS : ℕ) : ℚ))
      have hq : 0 < (((BUTTON_COOLDOWN_MS : ℚ)) - ((now : ℚ) - (last : ℚ))) / 1000 := by
        have : (0 : ℚ) < 1000 := by norm_num
        exact div_pos (by linarith) this
      exact Int.ceil_pos.mpr hq
    constructor
    · simp [getButtonCooldownSeconds, h]
    · simp only [getButtonCooldownSeconds, h, if_pos]
      exact hpos
  · intro h
    simp only [buttonInteractionGate, h, if_pos, gt_iff_lt]
    have hmap : (getButtonCooldownSeconds cooldowns userId buttonId now).2 = cooldowns := by
      by_cases hc : now - last < (BUTTON_COOLDOWN_MS : ℤ)
      · simp [getButtonCooldownSeconds, hc]
      · exfalso
        have : (getButtonCooldownSeconds cooldowns userId buttonId now).1 = 0 := by
          simp [getButtonCooldownSeconds, hc]
        omega
    rw [hmap]

/-- C5 witness: a press recorded at time 0 queried again at 1000ms waits
299 seconds with the map untouched, and the gate replies with the wait;
at 300000ms the press is accepted and re-recorded. -/
theorem buttonCooldown_spec_witness :
    ((1000 : ℤ) - ((([("u:b", 0)] : List (String × ℤ)).lookup ("u" ++ ":" ++ "b")).getD 0) <
      (BUTTON_COOLDOWN_MS : ℤ)) ∧
    (getButtonCooldownSeconds [("u:b", 0)] "u" "b" 1000 =
      (⌈(((BUTTON_COOLDOWN_MS : ℚ)) - ((1000 : ℚ) - ((0 : ℤ) : ℚ))) / 1000⌉,
        [("u:b", 0)]) ∧
      0 < (getButtonCooldownSeconds [("u:b", 0)] "u" "b" 1000).1) ∧
    ((BUTTON_COOLDOWN_MS : ℤ) ≤ (300000 : ℤ) -
      ((([("u:b", 0)] : List (String × ℤ)).lookup ("u" ++ ":" ++ "b")).getD 0)) ∧
    getButtonCooldownSeconds [("u:b", 0)] "u" "b" 300000 =
      (0, mapSet [("u:b", 0)] ("u" ++ ":" ++ "b") 300000) := by
  refine ⟨by decide, ?_, by decide, ?_⟩
  · have h := (buttonCooldown_spec [("u:b", 0)] "u" "b" 1000).2.1 (by decide)
    simpa using h
  · exact (buttonCooldown_spec [("u:b", 0)] "u" "b" 300000).1 (by decide)

/-! ## Claim C6: the single boolean refresh lock (index.js lines
1080-1136 / part_001 lines 569-613) -/

def REFRESH_COOLDOWN_MS : ℕ := 30000

/-- The module-level refresh state. -/
structure RefreshState where
  refreshLock : Bool
  lastRefreshAt : ℤ
deriving DecidableEq, Repr

/-- Observable events of one handleRefreshCommand invocation, in
program order. -/
inductive RefreshEvent where
  /-- Ephemeral "Please wait Ns before refreshing again." reply. -/
  | replyWait (secs : ℤ)
  /-- Ephemeral "A refresh is already running" reply. -/
  | replyBusy
  /-- refreshLock := true. -/
  | lockSet
  /-- scrapeAll() starts. -/
  | scrapeStart
  /-- renderAndPostToMainMessage (render + upsert of the message). -/
  | renderAndPost
  /-- Success reply. -/
  | replyDone
  /-- Catch branch: error reply. -/
  | replyError (msg : String)
  /-- Finally branch: refreshLock := false. -/
  | lockClear
deriving DecidableEq, Repr

/-- index.js handleRefreshCommand as a state transition emitting its
event trace.  channelOk models whether client.channels.fetch yields a
text channel; scrapeResult models the outcome of scrapeAll() (the whole
try-block body after the channel check collapses to: scrape, then
render+post on success). -/
def handleRefreshCommand (st : RefreshState) (now : ℤ) (channelOk : Bool)
    (scrapeResult : Except String Unit) :
    RefreshState × List RefreshEvent :=
  if now - st.lastRefreshAt < (REFRESH_COOLDOWN_MS : ℤ) then
    (st, [.replyWait ⌈(((REFRESH_COOLDOWN_MS : ℚ)) - ((now : ℚ) - (st.lastRefreshAt : ℚ))) / 1000⌉])
  else if st.refreshLock then
    (st, [.replyBusy])
  else
    let body : List RefreshEvent :=
      if channelOk then
        match scrapeResult with
        | .ok _ => [.scrapeStart, .renderAndPost, .replyDone]
        | .error e => [.scrapeStart, .replyError e]
      else
        [.replyError "Configured channelId is not a text channel"]
    ({ refreshLock := false, lastRefreshAt := now },
      [.lockSet] ++ body ++ [.lockClear])

/-- C6: a call within 30s of the previously accepted refresh, or while
the lock is held, replies wait/busy and performs no scrape, render or
post; an accepted call sets the lock before scraping, the trace ends
with the finally-branch clear, and the final state always has
refreshLock = false whenever the call began with the lock free. -/
theorem refreshLock_spec (st : RefreshState) (now : ℤ) (channelOk : Bool)
    (scrapeResult : Except String Unit) :
    (now - st.lastRefreshAt < (REFRESH_COOLDOWN_MS : ℤ) →
      (handleRefreshCommand st now channelOk scrapeResult).1 = st ∧
      (handleRefreshCommand st now channelOk scrapeResult).2 =
        [.replyWait ⌈(((REFRESH_COOLDOWN_MS : ℚ)) - ((now : ℚ) - (st.lastRefreshAt : ℚ))) / 1000⌉] ∧
      RefreshEvent.scrapeStart ∉ (handleRefreshCommand st now channelOk scrapeResult).2 ∧
      RefreshEvent.renderAndPost ∉ (handleRefreshCommand st now channelOk scrapeResult).2) ∧
    ((REFRESH_COOLDOWN_MS : ℤ) ≤ now - st.lastRefreshAt → st.refreshLock = true →
      (handleRefreshCommand st now channelOk scrapeResult).1 = st ∧
      (handleRefreshCommand st now channelOk scrapeResult).2 = [.replyBusy] ∧
      RefreshEvent.scrapeStart ∉ (handleRefreshCommand st now channelOk scrapeResult).2 ∧
      RefreshEvent.renderAndPost ∉ (handleRefreshCommand st now channelOk scrapeResult).2) ∧
    ((REFRESH_COOLDOWN_MS : ℤ) ≤ now - st.lastRefreshAt → st.refreshLock = false →
      (handleRefreshCommand st now channelOk scrapeResult).1 =
        { refreshLock := false, lastRefreshAt := now } ∧
      ((handleRefreshCommand st now channelOk scrapeResult).2.head? = some .lockSet ∧
        (handleRefreshCommand st now channelOk scrapeResult).2.getLast? = some .lockClear) ∧
      (channelOk = true →
        RefreshEvent.scrapeStart ∈ (handleRefreshCommand st now channelOk scrapeResult).2)) ∧
    (st.refreshLock = false →
      (handleRefreshCommand st now channelOk scrapeResult).1.refreshLock = false) := by
  by_cases hc : now - st.lastRefreshAt < (REFRESH_COOLDOWN_MS : ℤ)
  · refine ⟨fun _ => ?_, fun h _ => absurd hc (not_lt.mpr h),
      fun h _ => absurd hc (not_lt.mpr h), fun hfree => ?_⟩
    · simp [handleRefreshCommand, hc]
    · simp [handleRefreshCommand, hc, hfree]
  · have hge : (REFRESH_COOLDOWN_MS : ℤ) ≤ now - st.lastRefreshAt := not_lt.mp hc
    by_cases hl : st.refreshLock = true
    · refine ⟨fun h => absurd h hc, fun _ _ => ?_, fun _ hfree => ?_, fun hfree => ?_⟩
      · simp [handleRefreshCommand, hc, hl]
      · rw [hl] at hfree; exact absurd hfree (by simp)
      · rw [hfree] at hl; exact absurd hl (by simp)
    · have hfree : st.refreshLock = false := by
        cases h2 : st.refreshLock
        · rfl
        · exact absurd h2 hl
      refine ⟨fun h => absurd h hc, fun _ hle => absurd hle hl, fun _ _ => ?_, fun _ => ?_⟩
      · refine ⟨?_, ⟨?_, ?_⟩, ?_⟩
        · simp [handleRefreshCommand, hc, hfree]
        · cases channelOk <;> cases scrapeResult <;>
            simp [handleRefreshCommand, hc, hfree]
        · cases channelOk <;> cases scrapeResult <;>
            simp [handleRefreshCommand, hc, hfree]
        · intro hch
          cases scrapeResult <;>
            simp [handleRefreshCommand, hc, hfree, hch]
      · simp [handleRefreshCommand, hc, hfree]

/-- C6 witness: a refresh at now = 100000 from the initial state (lock
free, lastRefreshAt = 0) is accepted: the lock is set before the scrape,
the trace ends with the clear, and the final state has the lock free. -/
theorem refreshLock_spec_witness :
    ((REFRESH_COOLDOWN_MS : ℤ) ≤ (100000 : ℤ) -
        ({ refreshLock := false, lastRefreshAt := 0 } : RefreshState).lastRefreshAt) ∧
    (({ refreshLock := false, lastRefreshAt := 0 } : RefreshState).refreshLock = false) ∧
    ((handleRefreshCommand { refreshLock := false, lastRefreshAt := 0 } 100000 true
        (.ok ())).1 = { refreshLock := false, lastRefreshAt := 100000 } ∧
      ((handleRefreshCommand { refreshLock := false, lastRefreshAt := 0 } 100000 true
          (.ok ())).2.head? = some .lockSet ∧
        (handleRefreshCommand { refreshLock := false, lastRefreshAt := 0 } 100000 true
          (.ok ())).2.getLast? = some .lockClear) ∧
      (true = true →
        RefreshEvent.scrapeStart ∈
          (handleRefreshCommand { refreshLock := false, lastRefreshAt := 0 } 100000 true
            (.ok ())).2)) :=
  ⟨by decide, rfl,
    (refreshLock_spec { refreshLock := false, lastRefreshAt := 0 } 100000 true
      (.ok ())).2.2.1 (by decide) rfl⟩

/-! ## Claim C3: fetchHtmlWithRetry (index.js lines 133-168 / part_001
lines 103-138)

One HTTP attempt is represented by the response data the code inspects
(res.ok, res.status, the body text); the loop consumes one attempt
outcome per iteration and also records the milliseconds slept between
attempts. -/

def STANDINGS_MARKER : String := "PageContent_TeamsView_DXMainTable"

/-- The JavaScript default parameter attempts = 3. -/
def DEFAULT_FETCH_ATTEMPTS : ℕ := 3

/-- One HTTP response as the code observes it. -/
structure FetchAttempt where
  ok : Bool
  status : ℕ
  text : String
deriving DecidableEq, Repr

/-- The body of one loop iteration: a non-ok status throws, a body
without the marker throws, otherwise the body is returned. -/
def fetchAttemptResult (url : String) (a : FetchAttempt) :
    Except String String :=
  if !a.ok then
    .error ("Fetch failed (" ++ toString a.status ++ ") for " ++ url)
  else if !(strIncludes a.text STANDINGS_MARKER) then
    .error "HTML response missing expected standings table marker"
  else .ok a.text

/-- The retry loop: i counts attempts made so far, lastErr carries the
last caught error; after a failure with i < attempts - 1 the code sleeps
700 + i * 500 ms.  Returns the overall result and the sleeps performed.
-/
def fetchHtmlWithRetryGo (url : String) (attempts : ℕ) :
    ℕ → List FetchAttempt → Option String → Except String String × List ℕ
  | _, [], lastErr => (.error (lastErr.getD "Fetch failed"), [])
  | i, a :: rest, lastErr =>
    match fetchAttemptResult url a with
    | .ok t => (.ok t, [])
    | .error e =>
      let sleeps := if i + 1 < attempts then [700 + i * 500] else []
      let r := fetchHtmlWithRetryGo url attempts (i + 1) rest (some e)
      (r.1, sleeps ++ r.2)

/-- index.js fetchHtmlWithRetry run against a full schedule of attempt
outcomes (one entry per loop iteration). -/
def fetchHtmlWithRetry (url : String) (outcomes : List FetchAttempt) :
    Except String String × List ℕ :=
  fetchHtmlWithRetryGo url outcomes.length 0 outcomes none

/-- The message of a failed Except. -/
def exceptErrMsg : Except String String → String
  | .error e => e
  | .ok _ => ""

theorem filterMap_if_lt_eq_map (f : ℕ → ℕ) (b : ℕ) (l : List ℕ)
    (hb : ∀ k ∈ l, k < b) :
    l.filterMap (fun k => if k < b then some (f k) else none) = l.map f := by
  induction l with
  | nil => simp
  | cons a t ih =>
    have ha : a < b := hb a (List.mem_cons_self a t)
    simp only [List.filterMap_cons, ha, if_pos, List.map_cons]
    rw [ih (fun k hk => hb k (List.mem_cons_of_mem a hk))]

theorem filterMap_range_pred (f : ℕ → ℕ) (m : ℕ) :
    (List.range m).filterMap
      (fun k => if k < m - 1 then some (f k) else none) =
    (List.range (m - 1)).map f := by
  rcases m with _ | m2
  · simp
  · rw [List.range_succ, List.filterMap_append]
    have h2 : ([m2] : List ℕ).filterMap
        (fun k => if k < m2 + 1 - 1 then some (f k) else none) = [] := by
      simp
    rw [h2, List.append_nil]
    have h1 := filterMap_if_lt_eq_map f (m2 + 1 - 1) (List.range m2)
      (fun k hk => by
        have := List.mem_range.mp hk
        omega)
    simpa using h1

theorem fetchGo_ok_marker (url : String) (attempts : ℕ)
    (outcomes : List FetchAttempt) :
    ∀ (i : ℕ) (lastErr : Option String) (t : String),
      (fetchHtmlWithRetryGo url attempts i outcomes lastErr).1 = .ok t →
      strIncludes t STANDINGS_MARKER = true := by
  induction outcomes with
  | nil => intro i _lastErr t h; simp [fetchHtmlWithRetryGo] at h
  | cons a rest ih =>
    intro i lastErr t h
    simp only [fetchHtmlWithRetryGo] at h
    rcases hres : fetchAttemptResult url a with e | s
    · rw [hres] at h
      exact ih (i + 1) (some e) t h
    · rw [hres] at h
      simp only [Except.ok.injEq] at h
      subst h
      by_cases hok : a.ok = true
      · by_cases hmk : strIncludes a.text STANDINGS_MARKER = true
        · have : s = a.text := by
            simp [fetchAttemptResult, hok, hmk] at hres
            exact hres.symm
          rw [this]; exact hmk
        · simp [fetchAttemptResult, hok, hmk] at hres
      · simp [fetchAttemptResult, hok] at hres

set_option maxRecDepth 4000 in
theorem fetchGo_all_fail (url : String) (attempts : ℕ)
    (outcomes : List FetchAttempt)
    (hfail : ∀ a ∈ outcomes, ∃ e, fetchAttemptResult url a = .error e) :
    ∀ (i : ℕ) (lastErr : Option String) (hne : outcomes ≠ []),
      i + outcomes.length = attempts →
      (fetchHtmlWithRetryGo url attempts i outcomes lastErr).1 =
        .error (exceptErrMsg (fetchAttemptResult url (outcomes.getLast hne))) ∧
      (fetchHtmlWithRetryGo url attempts i outcomes lastErr).2 =
        (List.range (outcomes.length - 1)).map (fun k => 700 + (i + k) * 500) := by
  induction outcomes with
  | nil => intro i lastErr hne; exact absurd rfl hne
  | cons a rest ih =>
    intro i lastErr hne hatt
    obtain ⟨e, he⟩ := hfail a (List.mem_cons_self a rest)
    by_cases hrest : rest = []
    · subst hrest
      have hnot : ¬ (i + 1 < attempts) := by
        simp only [List.length_cons, List.length_nil] at hatt
        omega
      constructor
      · simp [fetchHtmlWithRetryGo, he, List.getLast, exceptErrMsg]
      · simp [fetchHtmlWithRetryGo, he, hnot]
    · have hlen : 1 ≤ rest.length := by
        rcases rest with _ | _
        · exact absurd rfl hrest
        · simp
      have hatt2 : (i + 1) + rest.length = attempts := by
        simp only [List.length_cons] at hatt
        omega
      have hrec := ih (fun x hx => hfail x (List.mem_cons_of_mem a hx))
        (i + 1) (some e) hrest hatt2
      have hsleep : i + 1 < attempts := by omega
      constructor
      · simp only [fetchHtmlWithRetryGo, he]
        rw [List.getLast_cons hrest]
        exact hrec.1
      · simp only [fetchHtmlWithRetryGo, he, hsleep, if_pos]
        rw [hrec.2]
        have hr : List.range ((a :: rest).length - 1) =
            0 :: (List.range (rest.length - 1)).map Nat.succ := by
          simp only [List.length_cons, Nat.add_sub_cancel]
          rcases rest with _ | ⟨b, t⟩
          · exact absurd rfl hrest
          · simp only [List.length_cons, Nat.add_sub_cancel]
            exact List.range_succ_eq_map t.length
        rw [hr]
        simp only [List.map_cons, List.map_map, Nat.add_zero,
          List.singleton_append]
        congr 1
        apply List.map_congr_left
        intro k _
        simp only [Function.comp]
        congr 1
        omega

/-- C3: fetchHtmlWithRetry only ever returns a body containing the
marker string; a non-ok status or a marker-less body is a failed
attempt; when every attempt fails the function returns the error of the
last attempt, and it slept between consecutive attempts (after each
failed attempt except the last, 700 + i*500 ms), so a full run of n
attempts performs n - 1 sleeps. -/
theorem fetchHtmlWithRetry_spec (url : String)
    (outcomes : List FetchAttempt) :
    (∀ t, (fetchHtmlWithRetry url outcomes).1 = .ok t →
      strIncludes t STANDINGS_MARKER = true) ∧
    (∀ a ∈ outcomes, a.ok = false ∨ strIncludes a.text STANDINGS_MARKER = false →
      ∃ e, fetchAttemptResult url a = .error e) ∧
    ((∀ a ∈ outcomes, ∃ e, fetchAttemptResult url a = .error e) →
      ∀ hne : outcomes ≠ [],
        (fetchHtmlWithRetry url outcomes).1 =
          .error (exceptErrMsg (fetchAttemptResult url (outcomes.getLast hne))) ∧
        (fetchHtmlWithRetry url outcomes).2 =
          (List.range (outcomes.length - 1)).map (fun k => 700 + k * 500)) := by
  refine ⟨fun t h => fetchGo_ok_marker url outcomes.length outcomes 0 none t h,
    ?_, ?_⟩
  · intro a _ hbad
    rcases hbad with hok | hmk
    · exact ⟨"Fetch failed (" ++ toString a.status ++ ") for " ++ url,
        by simp [fetchAttemptResult, hok]⟩
    · by_cases hok : a.ok = true
      · exact ⟨"HTML response missing expected standings table marker",
          by simp [fetchAttemptResult, hok, hmk]⟩
      · have hok2 : a.ok = false := by
          cases h2 : a.ok
          · rfl
          · exact absurd h2 hok
        exact ⟨"Fetch failed (" ++ toString a.status ++ ") for " ++ url,
          by simp [fetchAttemptResult, hok2]⟩
  · intro hfail hne
    have h := fetchGo_all_fail url outcomes.length outcomes hfail 0 none hne
      (by omega)
    refine ⟨h.1, ?_⟩
    rw [show fetchHtmlWithRetry url outcomes =
      fetchHtmlWithRetryGo url outcomes.length 0 outcomes none from rfl, h.2]
    apply List.map_congr_left
    intro k _
    simp

/-- A concrete schedule of three failing attempts (HTTP 500, a body
without the marker, HTTP 404) used as the C3 witness input. -/
def fetchWitnessOutcomes : List FetchAttempt :=
  [{ ok := false, status := 500, text := "" },
   { ok := true, status := 200, text := "<html>no marker here</html>" },
   { ok := false, status := 404, text := "" }]

/-- C3 witness: on three failing attempts the function sleeps 700 ms and
then 1200 ms and returns the third attempt's error. -/
theorem fetchHtmlWithRetry_spec_witness :
    (∀ a ∈ fetchWitnessOutcomes,
      ∃ e, fetchAttemptResult "http://x" a = .error e) ∧
    (fetchHtmlWithRetry "http://x" fetchWitnessOutcomes).1 =
      .error ("Fetch failed (404) for http://x") ∧
    (fetchHtmlWithRetry "http://x" fetchWitnessOutcomes).2 = [700, 1200] := by
  have hfail : ∀ a ∈ fetchWitnessOutcomes,
      ∃ e, fetchAttemptResult "http://x" a = .error e := by
    intro a ha
    simp only [fetchWitnessOutcomes, List.mem_cons, List.not_mem_nil,
      or_false] at ha
    rcases ha with rfl | rfl | rfl
    · exact ⟨"Fetch failed (500) for http://x", rfl⟩
    · exact ⟨"HTML response missing expected standings table marker", rfl⟩
    · exact ⟨"Fetch failed (404) for http://x", rfl⟩
  have h := (fetchHtmlWithRetry_spec "http://x" fetchWitnessOutcomes).2.2 hfail
    (by decide)
  refine ⟨hfail, ?_, ?_⟩
  · rw [h.1]; rfl
  · rw [h.2]; decide

/-! ## Claim C2: buildScaledColumns (render.js lines 262-282 and
1138-1158; both copies are identical)

A column is represented by its base width c.w (the only field the width
computation reads); the double arithmetic is idealised as exact rational
arithmetic. -/

/-- render.js sumCols: cols.reduce((a, c) => a + c.w, 0). -/
def sumCols (cols : List ℕ) : ℕ := cols.foldl (fun a c => a + c) 0

/-- widths[i] += 1. -/
def bumpAt : List ℤ → ℕ → List ℤ
  | [], _ => []
  | x :: xs, 0 => (x + 1) :: xs
  | x :: xs, n + 1 => x :: bumpAt xs n

/-- The pixel-distribution loop of buildScaledColumns: walk the sorted
order, bumping widths[order[k].i] while remain > 0. -/
def distribute : List ℤ → List (ℕ × ℚ) → ℤ → List ℤ
  | ws, [], _ => ws
  | ws, o :: rest, remain =>
    if 0 < remain then distribute (bumpAt ws o.1) rest (remain - 1) else ws

/-- render.js buildScaledColumns: scale the base widths by
min(1, tableW / baseW), floor them, then hand the remaining pixels to
the columns with the largest fractional parts (sort is JavaScript's
stable sort with comparator (a, b) => b.frac - a.frac). -/
def buildScaledColumns (cols : List ℕ) (tableW : ℕ) : List ℤ :=
  let baseW := sumCols cols
  let scale : ℚ := min 1 ((tableW : ℚ) / (baseW : ℚ))
  let wfs : List ℚ := cols.map (fun (c : ℕ) => (c : ℚ) * scale)
  let widths : List ℤ := wfs.map (fun x => ⌊x⌋)
  let used : ℤ := widths.foldl (fun a n => a + n) 0
  let remain : ℤ := (tableW : ℤ) - used
  let order : List (ℕ × ℚ) :=
    sortBy (fun a b => decide (b.2 ≤ a.2))
      (wfs.enum.map (fun p => (p.1, p.2 - ⌊p.2⌋)))
  distribute widths order remain

/-- The claim's exact proportional width of column i: base width times
tableW divided by the total base width. -/
def scaledExact (cols : List ℕ) (tableW : ℕ) (i : ℕ) : ℚ :=
  (cols.getD i 0 : ℚ) * (tableW : ℚ) / (sumCols cols : ℚ)

theorem bumpAt_length (ws : List ℤ) (i : ℕ) :
    (bumpAt ws i).length = ws.length := by
  induction ws generalizing i with
  | nil => simp [bumpAt]
  | cons x xs ih =>
    rcases i with _ | i2
    · simp [bumpAt]
    · simp [bumpAt, ih]

theorem bumpAt_sum (ws : List ℤ) (i : ℕ) (h : i < ws.length) :
    (bumpAt ws i).sum = ws.sum + 1 := by
  induction ws generalizing i with
  | nil => simp at h
  | cons x xs ih =>
    rcases i with _ | i2
    · simp [bumpAt]; ring
    · simp only [List.length_cons, Nat.succ_lt_succ_iff] at h
      simp only [bumpAt, List.sum_cons, ih i2 h]
      ring

theorem bumpAt_getD (ws : List ℤ) (i j : ℕ) (hj : j < ws.length) :
    (bumpAt ws i).getD j 0 = ws.getD j 0 + (if j = i then 1 else 0) := by
  induction ws generalizing i j with
  | nil => simp at hj
  | cons x xs ih =>
    rcases i with _ | i2 <;> rcases j with _ | j2
    · simp [bumpAt]
    · simp [bumpAt, List.getD_cons_succ]
    · simp [bumpAt, List.getD_cons_zero]
    · simp only [List.length_cons, Nat.succ_lt_succ_iff] at hj
      simp only [bumpAt, List.getD_cons_succ, ih i2 j2 hj,
        Nat.succ_eq_add_one, Nat.add_right_cancel_iff]

theorem distribute_length (order : List (ℕ × ℚ)) :
    ∀ (ws : List ℤ) (remain : ℤ),
      (distribute ws order remain).length = ws.length := by
  induction order with
  | nil => intro ws remain; simp [distribute]
  | cons o rest ih =>
    intro ws remain
    simp only [distribute]
    by_cases h : 0 < remain
    · simp only [h, if_pos]
      rw [ih (bumpAt ws o.1) (remain - 1), bumpAt_length]
    · simp [h]

theorem distribute_sum (order : List (ℕ × ℚ)) :
    ∀ (ws : List ℤ) (remain : ℤ),
      (∀ o ∈ order, o.1 < ws.length) → 0 ≤ remain →
      remain.toNat ≤ order.length →
      (distribute ws order remain).sum = ws.sum + remain := by
  induction order with
  | nil =>
    intro ws remain _ h0 hlen
    simp only [List.length_nil, Nat.le_zero] at hlen
    have hr : remain = 0 := by omega
    simp [distribute, hr]
  | cons o rest ih =>
    intro ws remain hvalid h0 hlen
    simp only [distribute]
    by_cases h : 0 < remain
    · simp only [h, if_pos]
      have hl2 : (remain - 1).toNat ≤ rest.length := by
        simp only [List.length_cons] at hlen
        omega
      have hrec := ih (bumpAt ws o.1) (remain - 1)
        (fun x hx => by
          rw [bumpAt_length]
          exact hvalid x (List.mem_cons_of_mem o hx))
        (by omega) hl2
      rw [hrec, bumpAt_sum ws o.1 (hvalid o (List.mem_cons_self o rest))]
      ring
    · have hr : remain = 0 := by omega
      simp [h, hr]

theorem distribute_getD (order : List (ℕ × ℚ)) :
    ∀ (ws : List ℤ) (remain : ℤ),
      (∀ o ∈ order, o.1 < ws.length) →
      (order.map Prod.fst).Nodup → 0 ≤ remain →
      remain.toNat ≤ order.length →
      ∀ j, j < ws.length →
      (distribute ws order remain).getD j 0 =
        ws.getD j 0 +
          (if j ∈ (order.take remain.toNat).map Prod.fst then 1 else 0) := by
  induction order with
  | nil =>
    intro ws remain _ _ h0 hlen j hj
    simp [distribute]
  | cons o rest ih =>
    intro ws remain hvalid hnd h0 hlen j hj
    simp only [distribute]
    by_cases h : 0 < remain
    · simp only [h, if_pos]
      have hnd2 : (o.1 :: rest.map Prod.fst).Nodup := by
        simpa only [List.map_cons] using hnd
      have hndr : (rest.map Prod.fst).Nodup := (List.nodup_cons.mp hnd2).2
      have hofst : o.1 ∉ rest.map Prod.fst := (List.nodup_cons.mp hnd2).1
      have hrec := ih (bumpAt ws o.1) (remain - 1)
        (fun x hx => by
          rw [bumpAt_length]
          exact hvalid x (List.mem_cons_of_mem o hx))
        hndr (by omega)
        (by simp only [List.length_cons] at hlen; omega)
        j (by rw [bumpAt_length]; exact hj)
      have htake : (o :: rest).take remain.toNat =
          o :: rest.take ((remain - 1).toNat) := by
        have h1 : remain.toNat = (remain - 1).toNat + 1 := by omega
        rw [h1]
        rfl
      rw [hrec, bumpAt_getD ws o.1 j hj, htake]
      simp only [List.map_cons, List.mem_cons]
      by_cases hjo : j = o.1
      · have hnotin : j ∉ (rest.take ((remain - 1).toNat)).map Prod.fst := by
          intro hmem
          apply hofst
          rw [← hjo]
          rcases List.mem_map.mp hmem with ⟨p, hp, hpj⟩
          exact List.mem_map.mpr ⟨p, List.mem_of_mem_take hp, hpj⟩
        rw [if_pos hjo, if_neg hnotin, if_pos (Or.inl hjo)]
        ring
      · rw [if_neg hjo]
        by_cases hmem : j ∈ (rest.take ((remain - 1).toNat)).map Prod.fst
        · rw [if_pos hmem, if_pos (Or.inr hmem)]
          ring
        · rw [if_neg hmem, if_neg ?_]
          · ring
          · rintro (h1 | h2)
            · exact hjo h1
            · exact hmem h2
    · have hr : remain = 0 := by omega
      simp [h, hr]

/-- Sums of mapped differences split (helper). -/
theorem sum_map_sub_q (l : List ℚ) (f g : ℚ → ℚ) :
    (l.map (fun x => f x - g x)).sum = (l.map f).sum - (l.map g).sum := by
  induction l with
  | nil => simp
  | cons a t ih =>
    simp only [List.map_cons, List.sum_cons, ih]
    ring

/-- The floored widths of buildScaledColumns. -/
def scaledW (wfs : List ℚ) : List ℤ := wfs.map (fun x => ⌊x⌋)

/-- Its order array: indices with fractional parts, stably sorted by
descending fractional part. -/
def scaledOrder (wfs : List ℚ) : List (ℕ × ℚ) :=
  sortBy (fun a b => decide (b.2 ≤ a.2))
    (wfs.enum.map (fun p => (p.1, p.2 - ⌊p.2⌋)))

/-- Its remaining-pixel count. -/
def scaledRemain (wfs : List ℚ) (t : ℕ) : ℤ :=
  (t : ℤ) - (scaledW wfs).foldl (fun a n => a + n) 0

theorem buildScaledColumns_as_distribute (cols : List ℕ) (tableW : ℕ)
    (hscale : min 1 ((tableW : ℚ) / (sumCols cols : ℚ)) =
      (tableW : ℚ) / (sumCols cols : ℚ)) :
    buildScaledColumns cols tableW =
      distribute
        (scaledW (cols.map (fun (c : ℕ) => (c : ℚ) * ((tableW : ℚ) / (sumCols cols : ℚ)))))
        (scaledOrder (cols.map (fun (c : ℕ) => (c : ℚ) * ((tableW : ℚ) / (sumCols cols : ℚ)))))
        (scaledRemain (cols.map (fun (c : ℕ) => (c : ℚ) * ((tableW : ℚ) / (sumCols cols : ℚ)))) tableW) := by
  simp only [buildScaledColumns, hscale, scaledW, scaledOrder, scaledRemain]

theorem scaled_core (wfs : List ℚ) (t : ℕ)
    (hne : wfs ≠ []) (hsum : wfs.sum = (t : ℚ)) :
    (distribute (scaledW wfs) (scaledOrder wfs) (scaledRemain wfs t)).length = wfs.length ∧
    (distribute (scaledW wfs) (scaledOrder wfs) (scaledRemain wfs t)).foldl
      (fun a n => a + n) 0 = (t : ℤ) ∧
    (∀ i, i < wfs.length →
      (distribute (scaledW wfs) (scaledOrder wfs) (scaledRemain wfs t)).getD i 0 =
        ⌊wfs.getD i 0⌋ ∨
      (distribute (scaledW wfs) (scaledOrder wfs) (scaledRemain wfs t)).getD i 0 =
        ⌊wfs.getD i 0⌋ + 1) ∧
    (∀ i j, i < wfs.length → j < wfs.length →
      (distribute (scaledW wfs) (scaledOrder wfs) (scaledRemain wfs t)).getD i 0 =
        ⌊wfs.getD i 0⌋ + 1 →
      (distribute (scaledW wfs) (scaledOrder wfs) (scaledRemain wfs t)).getD j 0 =
        ⌊wfs.getD j 0⌋ →
      wfs.getD j 0 - ⌊wfs.getD j 0⌋ ≤ wfs.getD i 0 - ⌊wfs.getD i 0⌋) := by
  have hfold : ∀ l : List ℤ, l.foldl (fun a n => a + n) 0 = l.sum :=
    fun l => (List.sum_eq_foldl (l := l)).symm
  have hWlen : (scaledW wfs).length = wfs.length := by
    simp [scaledW]
  -- cast of the floored sum
  have hcastsum : ∀ l : List ℤ,
      ((l.sum : ℤ) : ℚ) = (l.map (fun (z : ℤ) => (z : ℚ))).sum := by
    intro l
    induction l with
    | nil => simp
    | cons a t2 ih => simp [ih]
  have hWsumcast : (((scaledW wfs).sum : ℤ) : ℚ) =
      (wfs.map (fun x => ((⌊x⌋ : ℤ) : ℚ))).sum := by
    rw [hcastsum, scaledW, List.map_map]
    rfl
  have hfloor_le : (((scaledW wfs).sum : ℤ) : ℚ) ≤ (t : ℚ) := by
    rw [hWsumcast, ← hsum]
    have h1 : (wfs.map (fun x => ((⌊x⌋ : ℤ) : ℚ))).sum ≤ (wfs.map id).sum :=
      List.sum_le_sum (fun x _ => Int.floor_le x)
    simpa using h1
  have hused_le : (scaledW wfs).sum ≤ (t : ℤ) := by exact_mod_cast hfloor_le
  have hR0 : 0 ≤ scaledRemain wfs t := by
    rw [scaledRemain, hfold]
    omega
  -- strict bound on the remainder
  have hdiff : ((t : ℚ)) - (((scaledW wfs).sum : ℤ) : ℚ) =
      (wfs.map (fun x => x - ((⌊x⌋ : ℤ) : ℚ))).sum := by
    rw [hWsumcast, ← hsum,
      sum_map_sub_q wfs (fun x => x) (fun x => ((⌊x⌋ : ℤ) : ℚ))]
    simp
  have hconstsum : ∀ l : List ℚ, (l.map (fun _ => (1 : ℚ))).sum = (l.length : ℚ) := by
    intro l
    induction l with
    | nil => simp
    | cons a t2 ih =>
      simp only [List.map_cons, List.sum_cons, ih, List.length_cons]
      push_cast
      ring
  have hfrac_lt : (((t : ℤ) - (scaledW wfs).sum : ℤ) : ℚ) < (wfs.length : ℚ) := by
    have hlt : (wfs.map (fun x => x - ((⌊x⌋ : ℤ) : ℚ))).sum <
        (wfs.map (fun _ => (1 : ℚ))).sum := by
      refine List.sum_lt_sum _ _ (fun x _ => ?_) ?_
      · exact le_of_lt (by
          have := Int.fract_lt_one x
          rw [Int.fract] at this
          exact this)
      · rcases wfs with _ | ⟨x0, rest⟩
        · exact absurd rfl hne
        · refine ⟨x0, List.mem_cons_self x0 rest, ?_⟩
          have := Int.fract_lt_one x0
          rw [Int.fract] at this
          exact this
    have hmain : (t : ℚ) - (((scaledW wfs).sum : ℤ) : ℚ) < (wfs.length : ℚ) := by
      rw [hdiff]
      calc (wfs.map (fun x => x - ((⌊x⌋ : ℤ) : ℚ))).sum
          < (wfs.map (fun _ => (1 : ℚ))).sum := hlt
        _ = (wfs.length : ℚ) := hconstsum wfs
    rw [Int.cast_sub, Int.cast_natCast]
    exact hmain
  have hOlen : (scaledOrder wfs).length = wfs.length := by
    rw [scaledOrder, sortBy_length]
    simp
  have hR_lt : scaledRemain wfs t < (wfs.length : ℤ) := by
    have : ((scaledRemain wfs t : ℤ) : ℚ) < (wfs.length : ℚ) := by
      rw [scaledRemain, hfold]
      exact_mod_cast hfrac_lt
    exact_mod_cast this
  have hRle : (scaledRemain wfs t).toNat ≤ (scaledOrder wfs).length := by
    rw [hOlen]
    omega
  -- order facts
  have hOperm : List.Perm (scaledOrder wfs)
      (wfs.enum.map (fun p => (p.1, p.2 - ⌊p.2⌋))) := sortBy_perm _ _
  have hpf : (wfs.enum.map (fun p : ℕ × ℚ => (p.1, p.2 - ⌊p.2⌋))).map Prod.fst =
      List.range wfs.length := by
    rw [List.map_map]
    have h1 : (Prod.fst ∘ fun p : ℕ × ℚ => (p.1, p.2 - ⌊p.2⌋)) =
        (Prod.fst : ℕ × ℚ → ℕ) := by
      funext p
      rfl
    rw [h1, List.enum_map_fst]
  have hfsts : List.Perm ((scaledOrder wfs).map Prod.fst)
      (List.range wfs.length) := by
    rw [← hpf]
    exact hOperm.map Prod.fst
  have hnodup : ((scaledOrder wfs).map Prod.fst).Nodup :=
    (hfsts.nodup_iff).mpr (List.nodup_range wfs.length)
  have hOvalid : ∀ o ∈ scaledOrder wfs, o.1 < wfs.length := by
    intro o ho
    have h1 : o.1 ∈ (scaledOrder wfs).map Prod.fst :=
      List.mem_map.mpr ⟨o, ho, rfl⟩
    have h2 : o.1 ∈ List.range wfs.length := hfsts.mem_iff.mp h1
    exact List.mem_range.mp h2
  have hOval : ∀ p ∈ scaledOrder wfs,
      p.2 = wfs.getD p.1 0 - ⌊wfs.getD p.1 0⌋ := by
    intro p hp
    have hp2 : p ∈ wfs.enum.map (fun p : ℕ × ℚ => (p.1, p.2 - ⌊p.2⌋)) :=
      hOperm.mem_iff.mp hp
    rcases List.mem_map.mp hp2 with ⟨q, hq, hqe⟩
    have hget : wfs[q.1]? = some q.2 := List.mem_enum_iff_getElem?.mp hq
    have hgd : wfs.getD q.1 0 = q.2 := by
      rw [List.getD_eq_getElem?_getD, hget]
      rfl
    rw [← hqe]
    simp only []
    rw [hgd]
  have htot : ∀ a b : ℕ × ℚ,
      (fun a b : ℕ × ℚ => decide (b.2 ≤ a.2)) a b = true ∨
      (fun a b : ℕ × ℚ => decide (b.2 ≤ a.2)) b a = true := by
    intro a b
    rcases le_total b.2 a.2 with h | h
    · exact Or.inl (decide_eq_true h)
    · exact Or.inr (decide_eq_true h)
  have htrans : ∀ a b c : ℕ × ℚ,
      (fun a b : ℕ × ℚ => decide (b.2 ≤ a.2)) a b = true →
      (fun a b : ℕ × ℚ => decide (b.2 ≤ a.2)) b c = true →
      (fun a b : ℕ × ℚ => decide (b.2 ≤ a.2)) a c = true := by
    intro a b c hab hbc
    exact decide_eq_true (le_trans (of_decide_eq_true hbc) (of_decide_eq_true hab))
  have hsorted : List.Pairwise
      (fun x y : ℕ × ℚ => (fun a b : ℕ × ℚ => decide (b.2 ≤ a.2)) x y = true)
      (scaledOrder wfs) := sortBy_pairwise _ htot htrans _
  have hOvalidW : ∀ o ∈ scaledOrder wfs, o.1 < (scaledW wfs).length := by
    intro o ho
    rw [hWlen]
    exact hOvalid o ho
  -- the floored widths pointwise
  have hWgetD : ∀ i, i < wfs.length →
      (scaledW wfs).getD i 0 = ⌊wfs.getD i 0⌋ := by
    intro i hi
    rw [scaledW, List.getD_eq_getElem _ _ (by simpa using hi),
      List.getElem_map, List.getD_eq_getElem _ _ hi]
  -- the master getD equation
  have hget : ∀ j, j < wfs.length →
      (distribute (scaledW wfs) (scaledOrder wfs) (scaledRemain wfs t)).getD j 0 =
        ⌊wfs.getD j 0⌋ +
          (if j ∈ ((scaledOrder wfs).take (scaledRemain wfs t).toNat).map Prod.fst
            then 1 else 0) := by
    intro j hj
    rw [distribute_getD (scaledOrder wfs) (scaledW wfs) (scaledRemain wfs t)
      hOvalidW hnodup hR0 hRle j (by rw [hWlen]; exact hj), hWgetD j hj]
  refine ⟨?_, ?_, ?_, ?_⟩
  · rw [distribute_length, hWlen]
  · rw [hfold, distribute_sum (scaledOrder wfs) (scaledW wfs)
      (scaledRemain wfs t) hOvalidW hR0 hRle, scaledRemain, hfold]
    ring
  · intro i hi
    rw [hget i hi]
    by_cases hmem : i ∈ ((scaledOrder wfs).take (scaledRemain wfs t).toNat).map Prod.fst
    · right
      rw [if_pos hmem]
    · left
      rw [if_neg hmem]
      ring
  · intro i j hi hj hib hjb
    rw [hget i hi] at hib
    rw [hget j hj] at hjb
    have hiB : i ∈ ((scaledOrder wfs).take (scaledRemain wfs t).toNat).map Prod.fst := by
      by_contra hc
      rw [if_neg hc] at hib
      omega
    have hjB : j ∉ ((scaledOrder wfs).take (scaledRemain wfs t).toNat).map Prod.fst := by
      intro hc
      rw [if_pos hc] at hjb
      omega
    rcases List.mem_map.mp hiB with ⟨pi, hpi_take, hpi_fst⟩
    -- the pair of j sits in the dropped suffix
    have hjO : j ∈ (scaledOrder wfs).map Prod.fst :=
      hfsts.mem_iff.mpr (List.mem_range.mpr hj)
    rcases List.mem_map.mp hjO with ⟨pj, hpj_O, hpj_fst⟩
    have hsplit : (scaledOrder wfs).take (scaledRemain wfs t).toNat ++
        (scaledOrder wfs).drop (scaledRemain wfs t).toNat = scaledOrder wfs :=
      List.take_append_drop _ _
    have hpj_drop : pj ∈ (scaledOrder wfs).drop (scaledRemain wfs t).toNat := by
      have : pj ∈ (scaledOrder wfs).take (scaledRemain wfs t).toNat ++
          (scaledOrder wfs).drop (scaledRemain wfs t).toNat := by
        rw [hsplit]; exact hpj_O
      rcases List.mem_append.mp this with h1 | h1
      · exact absurd (List.mem_map.mpr ⟨pj, h1, hpj_fst⟩) hjB
      · exact h1
    have hpair : (fun a b : ℕ × ℚ => decide (b.2 ≤ a.2)) pi pj = true := by
      have hsorted2 := hsorted
      rw [← hsplit] at hsorted2
      exact ((List.pairwise_append.mp hsorted2).2.2) pi hpi_take pj hpj_drop
    have hle2 : pj.2 ≤ pi.2 := of_decide_eq_true hpair
    have hpiO : pi ∈ scaledOrder wfs := List.mem_of_mem_take hpi_take
    have hv1 := hOval pi hpiO
    have hv2 := hOval pj hpj_O
    rw [hpi_fst] at hv1
    rw [hpj_fst] at hv2
    rw [← hv1, ← hv2]
    exact hle2

/-- C2: for a non-empty column list with positive base widths and a
table width not exceeding their sum, buildScaledColumns returns one
integer width per column; each width is the floor of the column's exact
proportional width (base width times tableW over total base width) or
that floor plus one; a bumped column's fractional part is at least every
non-bumped column's fractional part; and the widths sum to exactly the
table width. -/
theorem buildScaledColumns_spec (cols : List ℕ) (tableW : ℕ)
    (hne : cols ≠ []) (hpos : ∀ c ∈ cols, 0 < c)
    (hle : tableW ≤ sumCols cols) :
    (buildScaledColumns cols tableW).length = cols.length ∧
    (buildScaledColumns cols tableW).foldl (fun a n => a + n) 0 = (tableW : ℤ) ∧
    (∀ i, i < cols.length →
      (buildScaledColumns cols tableW).getD i 0 = ⌊scaledExact cols tableW i⌋ ∨
      (buildScaledColumns cols tableW).getD i 0 = ⌊scaledExact cols tableW i⌋ + 1) ∧
    (∀ i j, i < cols.length → j < cols.length →
      (buildScaledColumns cols tableW).getD i 0 = ⌊scaledExact cols tableW i⌋ + 1 →
      (buildScaledColumns cols tableW).getD j 0 = ⌊scaledExact cols tableW j⌋ →
      scaledExact cols tableW j - ⌊scaledExact cols tableW j⌋ ≤
        scaledExact cols tableW i - ⌊scaledExact cols tableW i⌋) := by
  have hsumeq : sumCols cols = cols.sum := by
    rw [sumCols, List.sum_eq_foldl]
  have hb : 0 < sumCols cols := by
    rw [hsumeq]
    exact List.sum_pos cols hpos hne
  have hbQ : (0 : ℚ) < (sumCols cols : ℚ) := by exact_mod_cast hb
  have hbne : (sumCols cols : ℚ) ≠ 0 := ne_of_gt hbQ
  have hdivle : (tableW : ℚ) / (sumCols cols : ℚ) ≤ 1 :=
    (div_le_one hbQ).mpr (by exact_mod_cast hle)
  have hscale : min 1 ((tableW : ℚ) / (sumCols cols : ℚ)) =
      (tableW : ℚ) / (sumCols cols : ℚ) := min_eq_right hdivle
  have hbuild := buildScaledColumns_as_distribute cols tableW hscale
  have hwfs_ne :
      cols.map (fun (c : ℕ) => (c : ℚ) * ((tableW : ℚ) / (sumCols cols : ℚ))) ≠ [] := by
    intro h
    exact hne (List.map_eq_nil_iff.mp h)
  have hcast_nat : ∀ l : List ℕ,
      ((l.sum : ℕ) : ℚ) = (l.map (fun (c : ℕ) => (c : ℚ))).sum := by
    intro l
    induction l with
    | nil => simp
    | cons a t2 ih => simp [ih]
  have hwfs_sum :
      (cols.map (fun (c : ℕ) => (c : ℚ) * ((tableW : ℚ) / (sumCols cols : ℚ)))).sum =
        (tableW : ℚ) := by
    rw [List.sum_map_mul_right, ← hcast_nat, ← hsumeq]
    field_simp
  have hwfs_len :
      (cols.map (fun (c : ℕ) => (c : ℚ) * ((tableW : ℚ) / (sumCols cols : ℚ)))).length =
        cols.length := by simp
  have hwfs_getD : ∀ i, i < cols.length →
      (cols.map (fun (c : ℕ) => (c : ℚ) * ((tableW : ℚ) / (sumCols cols : ℚ)))).getD i 0 =
        scaledExact cols tableW i := by
    intro i hi
    rw [List.getD_eq_getElem _ _ (by simpa using hi), List.getElem_map,
      scaledExact, List.getD_eq_getElem _ _ hi, mul_div_assoc]
  have hcore := scaled_core
    (cols.map (fun (c : ℕ) => (c : ℚ) * ((tableW : ℚ) / (sumCols cols : ℚ))))
    tableW hwfs_ne hwfs_sum
  refine ⟨?_, ?_, ?_, ?_⟩
  · rw [hbuild, hcore.1, hwfs_len]
  · rw [hbuild]
    exact hcore.2.1
  · intro i hi
    have h := hcore.2.2.1 i (by rw [hwfs_len]; exact hi)
    rw [hwfs_getD i hi] at h
    rw [hbuild]
    exact h
  · intro i j hi hj hib hjb
    have h := hcore.2.2.2 i j (by rw [hwfs_len]; exact hi)
      (by rw [hwfs_len]; exact hj)
    rw [hwfs_getD i hi, hwfs_getD j hj] at h
    rw [hbuild] at hib hjb
    exact h hib hjb

/-- C2 witness: three columns of widths 34, 240, 46 scaled into a
200-pixel table sum exactly to 200. -/
theorem buildScaledColumns_spec_witness :
    (([34, 240, 46] : List ℕ) ≠ []) ∧
    (∀ c ∈ ([34, 240, 46] : List ℕ), 0 < c) ∧
    200 ≤ sumCols [34, 240, 46] ∧
    (buildScaledColumns [34, 240, 46] 200).foldl (fun a n => a + n) 0 =
      (200 : ℤ) :=
  ⟨by decide, by decide, by decide,
    (buildScaledColumns_spec [34, 240, 46] 200 (by decide) (by decide)
      (by decide)).2.1⟩

/-! ## Claim C9: buildClassPanels (index.js lines 567-605 / part_001
lines 323-361; the two copies are identical) -/

/-- Leading digit run of a character list. -/
def splitLeadingDigits : List Char → List Char × List Char
  | [] => ([], [])
  | c :: rest =>
    if c.isDigit then
      let r := splitLeadingDigits rest
      (c :: r.1, r.2)
    else ([], c :: rest)

/-- Decimal value of a digit run. -/
def digitsVal (ds : List Char) : ℕ :=
  ds.foldl (fun a c => a * 10 + (c.toNat - 48)) 0

/-- JavaScript Number() on an unsigned string made of digits, at most
one dot: Digits [. Digits?] or . Digits; anything else is NaN (none). -/
def jsParseUnsigned (cs : List Char) : Option ℚ :=
  let p := splitLeadingDigits cs
  match h : p.2 with
  | [] => if p.1 = [] then none else some (digitsVal p.1 : ℚ)
  | d :: rest2 =>
    if d = '.' then
      let q := splitLeadingDigits rest2
      if q.2 = [] ∧ (p.1 ≠ [] ∨ q.1 ≠ []) then
        some ((digitsVal p.1 : ℚ) + (digitsVal q.1 : ℚ) / ((10 : ℚ) ^ q.1.length))
      else none
    else none

/-- JavaScript Number() on a string whose characters are only digits,
dots and minus signs (the residue of replace(/[^\d.-]/g, "")); the
empty string parses as 0. -/
def jsParseNumber : List Char → Option ℚ
  | [] => some 0
  | '-' :: rest => (jsParseUnsigned rest).map (fun q => -q)
  | cs => jsParseUnsigned cs

/-- index.js toNumber: strip every character that is not a digit, a dot
or a minus sign, parse with Number(), and map non-finite results to 0.
-/
def toNumber (v : String) : ℚ :=
  match jsParseNumber
    (v.data.filter (fun c => c.isDigit || c == '.' || c == '-')) with
  | some q => q
  | none => 0

/-- Smallest exponent k (from the given start, within fuel) such that
q * 10^k is an integer. -/
def decExpGo (q : ℚ) : ℕ → ℕ → Option ℕ
  | _, 0 => none
  | k, fuel + 1 =>
    if (q * (10 : ℚ) ^ k).den = 1 then some k else decExpGo q (k + 1) fuel

/-- JavaScript String(n) for the numbers this bot produces: integers
print with no decimal point, finite decimals print their shortest
decimal expansion.  (Doubles whose shortest round-trip representation
is not the exact decimal value do not occur in this data.) -/
def jsNumToString (q : ℚ) : String :=
  if q.den = 1 then toString q.num
  else
    match decExpGo q 1 20 with
    | some k =>
      let scaled : ℤ := (q * (10 : ℚ) ^ k).num
      let sign := if scaled < 0 then "-" else ""
      let m := scaled.natAbs
      let ip := m / 10 ^ k
      let fp := m % 10 ^ k
      let fpStr := toString fp
      let pad := String.mk (List.replicate (k - fpStr.length) '0')
      sign ++ toString ip ++ "." ++ pad ++ fpStr
    | none => toString q.num ++ "/" ++ toString q.den

/-- The regexp Season\s+(\d+) applied at the head of the list (case
insensitively): the word season, at least one whitespace, then the
maximal digit run, which is captured. -/
def seasonAt (cs : List Char) : Option (List Char) :=
  if (cs.take 6).map Char.toLower == "season".data then
    let rest := cs.drop 6
    let ws := rest.takeWhile jsIsWs
    if ws.isEmpty then none
    else
      let ds := (rest.dropWhile jsIsWs).takeWhile Char.isDigit
      if ds.isEmpty then none else some ds
  else none

/-- Leftmost match of Season\s+(\d+). -/
def seasonSearch : List Char → Option (List Char)
  | [] => none
  | c :: rest =>
    match seasonAt (c :: rest) with
    | some ds => some ds
    | none => seasonSearch rest

/-- index.js: (standings.title || "").match(/Season\s+(\d+)/i)?.[1] ||
"??". -/
def seasonTextOf (title : String) : String :=
  match seasonSearch title.data with
  | some ds => String.mk ds
  | none => "??"

/-- One rendered leaderboard panel. -/
structure Panel where
  title : String
  subtitle : String
  rows : List Row
deriving DecidableEq, Repr

def panelDefault : Panel := { title := "", subtitle := "", rows := [] }

/-- The fixed class order of buildClassPanels. -/
def classOrder : List String := ["Pro", "Silver", "Pro-Am", "Am"]

/-- (r.className || "").trim().toLowerCase() === cls.toLowerCase(). -/
def classMatches (cls : String) (r : Row) : Bool :=
  jsToLower (jsTrim r.className) == jsToLower cls

/-- The class rows: filter by class, then sort by numeric position
(JavaScript stable sort with comparator toNumber(a.pos) -
toNumber(b.pos)). -/
def classRowsFor (rows : List Row) (cls : String) : List Row :=
  sortBy (fun a b => decide (toNumber a.pos ≤ toNumber b.pos))
    (rows.filter (classMatches cls))

/-- clsRows.map((r, i) => ...): renumber positions from 1 and rewrite
diff as nett minus the class leader's nett (0 for the leader). -/
def rebuiltClassRows (clsRows : List Row) (leaderNett : ℚ) : List Row :=
  clsRows.enum.map (fun p =>
    let i := p.1
    let r := p.2
    let nett := toNumber r.nett
    let diff : ℚ := if i = 0 then 0 else nett - leaderNett
    { r with pos := toString (i + 1), diff := jsNumToString diff })

/-- The loop body of buildClassPanels for one class. -/
def classPanelFor (rows : List Row) (seasonText splitLabel cls : String) :
    Panel :=
  let clsRows := classRowsFor rows cls
  if clsRows.isEmpty then
    { title := cls ++ " — " ++ splitLabel ++ " — Season " ++ seasonText ++
        " (" ++ toString clsRows.length ++ " drivers)",
      subtitle := "Auto-generated (Diff reset per class leader)",
      rows := [] }
  else
    let leaderNett := toNumber ((clsRows.headD rowDefault).nett)
    { title := cls ++ " — " ++ splitLabel ++ " — Season " ++ seasonText ++
        " (" ++ toString (rebuiltClassRows clsRows leaderNett).length ++
        " drivers)",
      subtitle := "Auto-generated (Diff reset per class leader)",
      rows := rebuiltClassRows clsRows leaderNett }

/-- index.js buildClassPanels: one panel per class of the fixed order.
-/
def buildClassPanels (standings : Panel) (splitLabel : String) :
    List Panel :=
  classOrder.map
    (classPanelFor standings.rows (seasonTextOf standings.title) splitLabel)

/-- The fields of a row that buildClassPanels leaves untouched (pos and
diff are rewritten). -/
def rowCore (r : Row) : Row := { r with pos := "", diff := "" }

theorem rebuilt_length (src : List Row) (L : ℚ) :
    (rebuiltClassRows src L).length = src.length := by
  simp [rebuiltClassRows]

theorem rebuilt_map_core (src : List Row) (L : ℚ) :
    (rebuiltClassRows src L).map rowCore = src.map rowCore := by
  rw [rebuiltClassRows, List.map_map]
  have h1 : (rowCore ∘ fun p : ℕ × Row =>
      { p.2 with
        pos := toString (p.1 + 1)
        diff := jsNumToString
          (if p.1 = 0 then 0 else toNumber p.2.nett - L) }) =
      (rowCore ∘ Prod.snd) := by
    funext p
    rfl
  rw [h1, ← List.map_map, List.enum_map_snd]

theorem rebuilt_getD (src : List Row) (L : ℚ) (i : ℕ)
    (hi : i < src.length) :
    (rebuiltClassRows src L).getD i rowDefault =
      { (src.getD i rowDefault) with
        pos := toString (i + 1)
        diff := jsNumToString
          (if i = 0 then 0 else toNumber (src.getD i rowDefault).nett - L) } := by
  rw [rebuiltClassRows,
    List.getD_eq_getElem _ _ (by simpa using hi),
    List.getElem_map, List.getElem_enum,
    List.getD_eq_getElem _ _ hi]

theorem classPanelFor_rows (rows : List Row) (st sl cls : String) :
    (classPanelFor rows st sl cls).rows =
      (if (classRowsFor rows cls).isEmpty then ([] : List Row) else
        rebuiltClassRows (classRowsFor rows cls)
          (toNumber ((classRowsFor rows cls).headD rowDefault).nett)) := by
  rw [classPanelFor]
  by_cases h : (classRowsFor rows cls).isEmpty <;> simp [h]

theorem classPanel_props (rows : List Row) (st sl cls : String) :
    (classPanelFor rows st sl cls).rows.length =
      (rows.filter (classMatches cls)).length ∧
    (∀ i, i < (classPanelFor rows st sl cls).rows.length →
      ((classPanelFor rows st sl cls).rows.getD i rowDefault).pos =
        toString (i + 1)) ∧
    (∃ src, List.Perm src (rows.filter (classMatches cls)) ∧
      List.Pairwise (fun a b => toNumber a.pos ≤ toNumber b.pos) src ∧
      (classPanelFor rows st sl cls).rows.map rowCore = src.map rowCore) ∧
    (∀ i, i < (classPanelFor rows st sl cls).rows.length →
      ((classPanelFor rows st sl cls).rows.getD i rowDefault).diff =
        jsNumToString (if i = 0 then 0 else
          toNumber ((classPanelFor rows st sl cls).rows.getD i rowDefault).nett -
            toNumber ((classPanelFor rows st sl cls).rows.getD 0 rowDefault).nett)) ∧
    (0 < (classPanelFor rows st sl cls).rows.length →
      ((classPanelFor rows st sl cls).rows.getD 0 rowDefault).diff = "0") := by
  have hperm : List.Perm (classRowsFor rows cls) (rows.filter (classMatches cls)) :=
    sortBy_perm _ _
  have hsortb := sortBy_pairwise
    (fun a b : Row => decide (toNumber a.pos ≤ toNumber b.pos))
    (fun a b => by
      rcases le_total (toNumber a.pos) (toNumber b.pos) with h | h
      · exact Or.inl (decide_eq_true h)
      · exact Or.inr (decide_eq_true h))
    (fun a b c hab hbc => decide_eq_true
      (le_trans (of_decide_eq_true hab) (of_decide_eq_true hbc)))
    (rows.filter (classMatches cls))
  have hsort : List.Pairwise (fun a b => toNumber a.pos ≤ toNumber b.pos)
      (classRowsFor rows cls) := by
    rw [classRowsFor]
    exact hsortb.imp of_decide_eq_true
  rcases hS : classRowsFor rows cls with _ | ⟨s0, S2⟩
  · have hFnil : rows.filter (classMatches cls) = [] := by
      have := hperm
      rw [hS] at this
      exact this.symm.eq_nil
    have hout : (classPanelFor rows st sl cls).rows = [] := by
      rw [classPanelFor_rows, hS]
      rfl
    refine ⟨by rw [hout, hFnil], by rw [hout]; intro i hi; simp at hi,
      ⟨[], by rw [hFnil], by simp, by rw [hout]⟩,
      by rw [hout]; intro i hi; simp at hi, by rw [hout]; intro h; simp at h⟩
  · have hne : ¬ (classRowsFor rows cls).isEmpty := by
      rw [hS]
      simp
    have hout : (classPanelFor rows st sl cls).rows =
        rebuiltClassRows (classRowsFor rows cls)
          (toNumber ((classRowsFor rows cls).headD rowDefault).nett) := by
      rw [classPanelFor_rows, if_neg hne]
    have hL : toNumber ((classRowsFor rows cls).headD rowDefault).nett =
        toNumber ((classRowsFor rows cls).getD 0 rowDefault).nett := by
      rw [hS]
      rfl
    have hlenout : (classPanelFor rows st sl cls).rows.length =
        (classRowsFor rows cls).length := by
      rw [hout, rebuilt_length]
    refine ⟨?_, ?_, ?_, ?_, ?_⟩
    · rw [hlenout, hperm.length_eq]
    · intro i hi
      rw [hlenout] at hi
      rw [hout, rebuilt_getD _ _ i hi]
    · exact ⟨classRowsFor rows cls, hperm, hsort, by rw [hout, rebuilt_map_core]⟩
    · intro i hi
      rw [hlenout] at hi
      have h0 : 0 < (classRowsFor rows cls).length := by omega
      rw [hout, rebuilt_getD _ _ i hi, rebuilt_getD _ _ 0 h0, hL]
    · intro hpos
      rw [hlenout] at hpos
      rw [hout, rebuilt_getD _ _ 0 hpos]
      simp only [if_pos]
      rfl

/-- C9: buildClassPanels returns exactly four panels in the order Pro,
Silver, Pro-Am, Am; panel k holds exactly the rows whose trimmed class
name equals that class case-insensitively, in some order sorted by
numeric position, with positions renumbered "1".."n" and diff rewritten
to the row's numeric nett minus the class leader's (the leader getting
"0"); rows of any other or empty class appear in no panel. -/
theorem buildClassPanels_spec (standings : Panel) (splitLabel : String) :
    (buildClassPanels standings splitLabel).length = 4 ∧
    (∀ k, k < 4 →
      ((buildClassPanels standings splitLabel).getD k panelDefault).rows.length =
        (standings.rows.filter (classMatches (classOrder.getD k ""))).length ∧
      (∀ i, i < ((buildClassPanels standings splitLabel).getD k panelDefault).rows.length →
        (((buildClassPanels standings splitLabel).getD k panelDefault).rows.getD i
          rowDefault).pos = toString (i + 1)) ∧
      (∃ src, List.Perm src
          (standings.rows.filter (classMatches (classOrder.getD k ""))) ∧
        List.Pairwise (fun a b => toNumber a.pos ≤ toNumber b.pos) src ∧
        ((buildClassPanels standings splitLabel).getD k panelDefault).rows.map
          rowCore = src.map rowCore) ∧
      (∀ i, i < ((buildClassPanels standings splitLabel).getD k panelDefault).rows.length →
        (((buildClassPanels standings splitLabel).getD k panelDefault).rows.getD i
          rowDefault).diff =
          jsNumToString (if i = 0 then 0 else
            toNumber (((buildClassPanels standings splitLabel).getD k
              panelDefault).rows.getD i rowDefault).nett -
            toNumber (((buildClassPanels standings splitLabel).getD k
              panelDefault).rows.getD 0 rowDefault).nett)) ∧
      (0 < ((buildClassPanels standings splitLabel).getD k panelDefault).rows.length →
        (((buildClassPanels standings splitLabel).getD k panelDefault).rows.getD 0
          rowDefault).diff = "0")) ∧
    (∀ r ∈ standings.rows,
      (∀ cls ∈ classOrder, classMatches cls r = false) →
      ∀ k, k < 4 →
        rowCore r ∉
          ((buildClassPanels standings splitLabel).getD k panelDefault).rows.map
            rowCore) := by
  have hlen4 : (buildClassPanels standings splitLabel).length = 4 := by
    simp [buildClassPanels, classOrder]
  have hgetP : ∀ k, k < 4 →
      (buildClassPanels standings splitLabel).getD k panelDefault =
        classPanelFor standings.rows (seasonTextOf standings.title) splitLabel
          (classOrder.getD k "") := by
    intro k hk
    have hk2 : k < classOrder.length := by simp [classOrder]; omega
    rw [buildClassPanels,
      List.getD_eq_getElem _ _ (by simpa using hk2),
      List.getElem_map, List.getD_eq_getElem _ _ hk2]
  refine ⟨hlen4, ?_, ?_⟩
  · intro k hk
    rw [hgetP k hk]
    exact classPanel_props standings.rows (seasonTextOf standings.title)
      splitLabel (classOrder.getD k "")
  · intro r hr hforeign k hk hmem
    rw [hgetP k hk] at hmem
    obtain ⟨src, hperm, _, hcore⟩ :=
      (classPanel_props standings.rows (seasonTextOf standings.title)
        splitLabel (classOrder.getD k "")).2.2.1
    rw [hcore] at hmem
    have hmem2 : rowCore r ∈
        (standings.rows.filter (classMatches (classOrder.getD k ""))).map
          rowCore := (hperm.map rowCore).mem_iff.mp hmem
    rcases List.mem_map.mp hmem2 with ⟨r2, hr2, hr2core⟩
    have hr2match : classMatches (classOrder.getD k "") r2 = true :=
      (List.mem_filter.mp hr2).2
    have hcls_eq : r2.className = r.className := by
      have := congrArg Row.className hr2core
      simpa [rowCore] using this
    have hrmatch : classMatches (classOrder.getD k "") r = true := by
      rw [classMatches, ← hcls_eq]
      exact hr2match
    have hclsmem : classOrder.getD k "" ∈ classOrder := by
      have hk2 : k < classOrder.length := by simp [classOrder]; omega
      rw [List.getD_eq_getElem _ _ hk2]
      exact List.getElem_mem hk2
    have := hforeign (classOrder.getD k "") hclsmem
    rw [this] at hrmatch
    exact Bool.false_ne_true hrmatch

/-- C9 witness: instantiating the class-panel specification for the
Pro panel of a concrete standings value. -/
theorem buildClassPanels_spec_witness :
    (0 : ℕ) < 4 ∧
    (buildClassPanels
      { title := "Split Yellow Sprint Standings — Season 24 (1 drivers)"
        subtitle := ""
        rows := [{ rowDefault with
                   pos := "1"
                   className := "Pro"
                   nett := "95" }] } "Split Yellow Sprint Standings").length = 4 ∧
    ((buildClassPanels
      { title := "Split Yellow Sprint Standings — Season 24 (1 drivers)"
        subtitle := ""
        rows := [{ rowDefault with
                   pos := "1"
                   className := "Pro"
                   nett := "95" }] } "Split Yellow Sprint Standings").getD 0
        panelDefault).rows.length =
      (([{ rowDefault with pos := "1", className := "Pro", nett := "95" }] :
        List Row).filter (classMatches (classOrder.getD 0 ""))).length := by
  refine ⟨by decide, ?_, ?_⟩
  · exact (buildClassPanels_spec
      { title := "Split Yellow Sprint Standings — Season 24 (1 drivers)"
        subtitle := ""
        rows := [{ rowDefault with
                   pos := "1"
                   className := "Pro"
                   nett := "95" }] } "Split Yellow Sprint Standings").1
  · exact ((buildClassPanels_spec
      { title := "Split Yellow Sprint Standings — Season 24 (1 drivers)"
        subtitle := ""
        rows := [{ rowDefault with
                   pos := "1"
                   className := "Pro"
                   nett := "95" }] } "Split Yellow Sprint Standings").2.1 0
      (by decide)).1

/-! ## Claim C4: pickBestDxGridTable / fetchStandingsGeneric
(standings.js lines 39-79 and 184-248)

The DOM is abstracted: a cell carries the values the cheerio queries
extract (first-anchor text, full text, first-image src, and the count of
a/img/script descendants used by the utility-column heuristic); a table
carries its data rows (lists of direct td cells) and the result of
findHeaderRow + extractHeaderCells (none when no header row is found).
All computation on those values follows the source. -/

/-- standings.js norm: collapse whitespace, trim, lowercase (named
normStr here because norm is taken by the ambient norm notation). -/
def normStr (s : String) : String := jsToLower (jsTrim (jsCollapseWs s))

/-- One td as the extraction queries see it. -/
structure Cell where
  aText : String
  rawText : String
  imgSrc : Option String
  aImgScriptCount : ℕ
deriving DecidableEq, Repr

/-- One DevExpress _DXMainTable candidate. -/
structure DxTable where
  dataRows : List (List Cell)
  headerCells : Option (List String)
deriving DecidableEq, Repr

/-- standings.js cleanWeirdDevExpressText. -/
def cleanWeirdDevExpressText (txt : String) : String :=
  let s := jsTrim txt
  if s = "" then ""
  else if startsWithSeq "<!--".data s.data ||
      strIncludes s "ASPx.AddDisabledItems" then ""
  else jsTrim (jsCollapseWs s)

/-- standings.js cellText (none models a null/empty selection). -/
def cellText : Option Cell → String
  | none => ""
  | some c =>
    let aTxt := jsTrim c.aText
    if aTxt ≠ "" then cleanWeirdDevExpressText aTxt
    else cleanWeirdDevExpressText c.rawText

/-- standings.js cellImageSrc. -/
def cellImageSrc : Option Cell → String
  | none => ""
  | some c =>
    match c.imgSrc with
    | some src => if src = "" then "" else jsTrim src
    | none => ""

/-- The header-driver predicate of pickBestDxGridTable. -/
def hasDriverHeader (hn : List String) : Bool :=
  hn.any (fun h => h == "driver" || strIncludes h "driver")

/-- One ternary contribution (cond ? k : 0) of the heuristic score. -/
def scorePart (b : Bool) (k : ℚ) : ℚ := if b then k else 0

/-- The heuristic score over the normalized headers and the data-row
count. -/
def scoreHeadersRows (hn : List String) (dataRowCount : ℕ) : ℚ :=
  scorePart (hn.any (fun h => strIncludes h "car#" || strIncludes h "car #")) 2 +
  scorePart (hn.any (fun h => h == "class" || strIncludes h "class")) 2 +
  scorePart (hn.any (fun h => h == "car")) 1 +
  scorePart (hn.any (fun h => strIncludes h "race")) 1 +
  scorePart (hn.any (fun h => strIncludes h "quali" || strIncludes h "qual")) 1 +
  scorePart (hn.any (fun h => strIncludes h "fastest" || h == "fl")) 1 +
  scorePart (hn.any (fun h => strIncludes h "nett" || strIncludes h "net")) 2 +
  scorePart (hn.any (fun h => strIncludes h "total")) 1 +
  scorePart (hn.any (fun h => strIncludes h "diff")) 1 +
  ((min dataRowCount 50 : ℕ) : ℚ) / 50

/-- The score of a table (its picked header row normalized). -/
def dxTableScore (t : DxTable) : ℚ :=
  scoreHeadersRows ((t.headerCells.getD []).map normStr) t.dataRows.length

/-- The conditions a table must pass before it is scored: at least 2
data rows, a detectable header row, a driver header cell. -/
def dxQualifies (t : DxTable) : Bool :=
  2 ≤ t.dataRows.length && t.headerCells.isSome &&
    hasDriverHeader ((t.headerCells.getD []).map normStr)

/-- One iteration of the dxTables.each loop. -/
def pickBestStep (acc : Option DxTable × ℚ) (t : DxTable) :
    Option DxTable × ℚ :=
  if t.dataRows.length < 2 then acc
  else
    match t.headerCells with
    | none => acc
    | some headers =>
      let hn := headers.map normStr
      if !(hn.any (fun h => h == "driver" || strIncludes h "driver")) then acc
      else
        let score := scoreHeadersRows hn t.dataRows.length
        if acc.2 < score then (some t, score) else acc

/-- standings.js pickBestDxGridTable (best = null, bestScore = -1, keep
any strictly better qualifying table). -/
def pickBestDxGridTable (tables : List DxTable) : Option DxTable :=
  (tables.foldl pickBestStep (none, (-1 : ℚ))).1

/-- The column map of mapColumnIndexes (-1 encodes a missing column). -/
structure ColMap where
  pos : ℤ
  driver : ℤ
  carNo : ℤ
  className : ℤ
  carImg : ℤ
  racePts : ℤ
  qualiPts : ℤ
  flPts : ℤ
  total : ℤ
  nett : ℤ
  diff : ℤ
deriving DecidableEq, Repr

/-- JavaScript findIndex wrapped to -1. -/
def findIdx (h : List String) (f : String → Bool) : ℤ :=
  match h.findIdx? f with
  | some i => (i : ℤ)
  | none => -1

/-- standings.js mapColumnIndexes. -/
def mapColumnIndexes (headers : List String) : ColMap :=
  let h := headers.map normStr
  { pos := findIdx h (fun x => x == "#" || x == "pos" || x == "position")
    driver := findIdx h (fun x => x == "driver" || strIncludes x "driver")
    carNo := findIdx h (fun x => strIncludes x "car#" || strIncludes x "car #")
    className := findIdx h (fun x => x == "class" || strIncludes x "class")
    carImg := findIdx h (fun x => x == "car")
    racePts := findIdx h (fun x => x == "race" || strIncludes x "race points")
    qualiPts := findIdx h (fun x => x == "quali" ||
      strIncludes x "quali points" || strIncludes x "qualifying")
    flPts := findIdx h (fun x => x == "fl" || strIncludes x "fastest lap")
    total := findIdx h (fun x => x == "total" || strIncludes x "total")
    nett := findIdx h (fun x => strIncludes x "nett" || x == "net" ||
      strIncludes x "net points")
    diff := findIdx h (fun x => strIncludes x "diff") }

/-- standings.js alignHeadersToData: pop while longer than the data td
count, push empty strings while shorter. -/
def alignHeadersToData (headers : List String) (dataTdCount : ℕ) :
    List String :=
  headers.take dataTdCount ++
    List.replicate (dataTdCount - headers.length) ""

/-- Result of trimTrailingUtilityColumn. -/
structure TrimResult where
  headers : List String
  trimLast : Bool
deriving DecidableEq, Repr

/-- standings.js trimTrailingUtilityColumn: drop a blank trailing header
when the last first-row cell looks like the DevExpress utility column.
-/
def trimTrailingUtilityColumn (headers : List String)
    (firstRowTds : List Cell) : TrimResult :=
  if headers.isEmpty then { headers := headers, trimLast := false }
  else if jsTrim (headers.getLastD "") ≠ "" then
    { headers := headers, trimLast := false }
  else
    let lastTxt := normStr
      (match firstRowTds.getLast? with
        | some c => c.rawText
        | none => "")
    let hasScriptNodes :=
      match firstRowTds.getLast? with
      | some c => decide (0 < c.aImgScriptCount)
      | none => false
    if strIncludes lastTxt "aspx.adddisableditems" ||
        strIncludes lastTxt "dxr.axd" || hasScriptNodes then
      { headers := headers.dropLast, trimLast := true }
    else { headers := headers, trimLast := false }

/-- One parsed standings.js row. -/
structure DxRow where
  pos : String
  driver : String
  carNo : String
  className : String
  carImg : String
  racePts : String
  qualiPts : String
  flPts : String
  total : String
  nett : String
  diff : String
deriving DecidableEq, Repr

/-- Build one row from a tr's td cells via the column map (getCell). -/
def parseRowFromTds (tds : List Cell) (colMap : ColMap) : DxRow :=
  let getCell := fun (idx : ℤ) =>
    if 0 ≤ idx then tds.get? idx.toNat else none
  { pos := cellText (getCell colMap.pos)
    driver := cellText (getCell colMap.driver)
    carNo := cellText (getCell colMap.carNo)
    className := cellText (getCell colMap.className)
    carImg := cellImageSrc (getCell colMap.carImg)
    racePts := cellText (getCell colMap.racePts)
    qualiPts := cellText (getCell colMap.qualiPts)
    flPts := cellText (getCell colMap.flPts)
    total := cellText (getCell colMap.total)
    nett := cellText (getCell colMap.nett)
    diff := cellText (getCell colMap.diff) }

/-- standings.js parseRows: optionally drop the trailing utility td,
skip rows with neither driver nor position. -/
def parseRows (dataRows : List (List Cell)) (colMap : ColMap)
    (trimLast : Bool) : List DxRow :=
  dataRows.filterMap (fun trTds =>
    let tds := if trimLast ∧ 0 < trTds.length then trTds.dropLast else trTds
    let row := parseRowFromTds tds colMap
    if row.driver = "" ∧ row.pos = "" then none else some row)

/-- headers.join(" | "). -/
def joinSep (sep : String) : List String → String
  | [] => ""
  | [x] => x
  | x :: y :: rest => x ++ sep ++ joinSep sep (y :: rest)

/-- standings.js fetchStandingsGeneric after the HTTP fetch: pick the
table, re-find its header row, align and trim the headers, map columns,
fail if the driver column is unmapped, else parse the rows. -/
def fetchStandingsGeneric (tables : List DxTable) :
    Except String (List DxRow) :=
  match pickBestDxGridTable tables with
  | none => .error "Could not locate the main DevExpress standings table."
  | some t =>
    match t.headerCells with
    | none => .error "Could not find header row in standings table."
    | some headers0 =>
      let firstTds := t.dataRows.headD []
      let headers1 := alignHeadersToData headers0 firstTds.length
      let tr := trimTrailingUtilityColumn headers1 firstTds
      let colMap := mapColumnIndexes tr.headers
      if colMap.driver < 0 then
        .error ("Couldn't map Driver column. Headers: " ++
          joinSep " | " tr.headers)
      else .ok (parseRows t.dataRows colMap tr.trimLast)

theorem scorePart_nonneg (b : Bool) (k : ℚ) (hk : 0 ≤ k) :
    0 ≤ scorePart b k := by
  rw [scorePart]
  split
  · exact hk
  · exact le_refl 0

theorem pickBestStep_eq (acc : Option DxTable × ℚ) (t : DxTable) :
    pickBestStep acc t =
      if dxQualifies t = true then
        (if acc.2 < dxTableScore t then (some t, dxTableScore t) else acc)
      else acc := by
  rcases h : t.headerCells with _ | headers
  · have hq : ¬ dxQualifies t = true := by
      rw [dxQualifies, h]
      simp
    rw [if_neg hq]
    unfold pickBestStep
    rw [h]
    by_cases h2 : t.dataRows.length < 2
    · rw [if_pos h2]
    · rw [if_neg h2]
  · unfold pickBestStep
    rw [h]
    dsimp only
    by_cases h2 : t.dataRows.length < 2
    · rw [if_pos h2]
      have hq : ¬ dxQualifies t = true := by
        rw [dxQualifies, h]
        simp only [Bool.and_eq_true, decide_eq_true_eq]
        intro hcon
        omega
      rw [if_neg hq]
    · cases h4 : hasDriverHeader (headers.map normStr)
      · have hq : ¬ dxQualifies t = true := by
          rw [dxQualifies, h]
          intro hcon
          simp only [Bool.and_eq_true] at hcon
          have hcon2 := hcon.2
          rw [show (some headers).getD [] = headers from rfl, h4] at hcon2
          exact Bool.false_ne_true hcon2
        rw [if_neg h2, if_neg hq]
        have h5 : ((headers.map normStr).any
            (fun h => h == "driver" || strIncludes h "driver")) = false := h4
        rw [h5]
        rfl
      · have hq : dxQualifies t = true := by
          rw [dxQualifies, h]
          simp only [Option.isSome_some, Option.getD_some, Bool.and_eq_true,
            decide_eq_true_eq]
          exact ⟨⟨by omega, trivial⟩, h4⟩
        rw [if_neg h2, if_pos hq]
        have h5 : ((headers.map normStr).any
            (fun h => h == "driver" || strIncludes h "driver")) = true := h4
        rw [h5]
        have hsc : dxTableScore t =
            scoreHeadersRows (headers.map normStr) t.dataRows.length := by
          rw [dxTableScore, h]
          rfl
        rw [← hsc]
        rfl

theorem dxTableScore_pos (t : DxTable) (h : dxQualifies t = true) :
    0 < dxTableScore t := by
  have hrows : 2 ≤ t.dataRows.length := by
    rw [dxQualifies] at h
    simp only [Bool.and_eq_true, decide_eq_true_eq] at h
    exact h.1.1
  have hfrac : 0 < ((min t.dataRows.length 50 : ℕ) : ℚ) / 50 := by
    have hmin : (2 : ℚ) ≤ ((min t.dataRows.length 50 : ℕ) : ℚ) := by
      have : 2 ≤ min t.dataRows.length 50 := by omega
      exact_mod_cast this
    have h50 : (0 : ℚ) < 50 := by norm_num
    exact div_pos (lt_of_lt_of_le (by norm_num) hmin) h50
  rw [dxTableScore, scoreHeadersRows]
  apply add_pos_of_nonneg_of_pos _ hfrac
  repeat' apply add_nonneg
  all_goals exact scorePart_nonneg _ _ (by norm_num)

theorem pickBest_fold_mono (tables : List DxTable) :
    ∀ acc : Option DxTable × ℚ,
      acc.2 ≤ (tables.foldl pickBestStep acc).2 ∧
      (∀ t ∈ tables, dxQualifies t = true →
        dxTableScore t ≤ (tables.foldl pickBestStep acc).2) := by
  induction tables with
  | nil => intro acc; exact ⟨le_refl _, by simp⟩
  | cons u l ih =>
    intro acc
    simp only [List.foldl_cons]
    have hstep : acc.2 ≤ (pickBestStep acc u).2 := by
      rw [pickBestStep_eq]
      by_cases hq : dxQualifies u = true
      · by_cases hlt : acc.2 < dxTableScore u
        · rw [if_pos hq, if_pos hlt]
          exact le_of_lt hlt
        · rw [if_pos hq, if_neg hlt]
      · rw [if_neg hq]
    have hscore : dxQualifies u = true →
        dxTableScore u ≤ (pickBestStep acc u).2 := by
      intro hq
      rw [pickBestStep_eq, if_pos hq]
      by_cases hlt : acc.2 < dxTableScore u
      · rw [if_pos hlt]
      · rw [if_neg hlt]
        exact le_of_not_lt hlt
    refine ⟨le_trans hstep (ih (pickBestStep acc u)).1, ?_⟩
    intro t ht hqt
    rcases List.mem_cons.mp ht with rfl | ht2
    · exact le_trans (hscore hqt) (ih (pickBestStep acc t)).1
    · exact (ih (pickBestStep acc u)).2 t ht2 hqt

theorem pickBest_fold_some (tables : List DxTable) :
    ∀ (acc : Option DxTable × ℚ) (t : DxTable),
      (tables.foldl pickBestStep acc).1 = some t →
      (acc.1 = some t ∧ (tables.foldl pickBestStep acc).2 = acc.2) ∨
      (t ∈ tables ∧ dxQualifies t = true ∧
        (tables.foldl pickBestStep acc).2 = dxTableScore t) := by
  induction tables with
  | nil => intro acc t h; exact Or.inl ⟨h, rfl⟩
  | cons u l ih =>
    intro acc t h
    simp only [List.foldl_cons] at h ⊢
    rcases ih (pickBestStep acc u) t h with ⟨h1, h2⟩ | ⟨h1, h2, h3⟩
    · rw [pickBestStep_eq] at h1 h2
      by_cases hq : dxQualifies u = true
      · by_cases hlt : acc.2 < dxTableScore u
        · rw [if_pos hq, if_pos hlt] at h1 h2
          have hut : u = t := by simpa using h1
          subst hut
          refine Or.inr ⟨List.mem_cons_self u l, hq, ?_⟩
          rw [pickBestStep_eq, if_pos hq, if_pos hlt]
          exact h2
        · rw [if_pos hq, if_neg hlt] at h1 h2
          refine Or.inl ⟨h1, ?_⟩
          rw [pickBestStep_eq, if_pos hq, if_neg hlt]
          exact h2
      · rw [if_neg hq] at h1 h2
        refine Or.inl ⟨h1, ?_⟩
        rw [pickBestStep_eq, if_neg hq]
        exact h2
    · refine Or.inr ⟨List.mem_cons_of_mem u h1, h2, h3⟩

theorem pickBest_fold_none (tables : List DxTable) :
    ∀ acc : Option DxTable × ℚ,
      (acc.1 = none → acc.2 = -1) →
      ((tables.foldl pickBestStep acc).1 = none ↔
        (acc.1 = none ∧ ∀ t ∈ tables, dxQualifies t = false)) := by
  induction tables with
  | nil => intro acc _; simp
  | cons u l ih =>
    intro acc hinv
    simp only [List.foldl_cons]
    by_cases hq : dxQualifies u = true
    · by_cases hlt : acc.2 < dxTableScore u
      · have hstep : pickBestStep acc u = (some u, dxTableScore u) := by
          rw [pickBestStep_eq, if_pos hq, if_pos hlt]
        rw [hstep]
        rw [ih (some u, dxTableScore u) (by intro hcon; simp at hcon)]
        constructor
        · intro hcon
          simp at hcon
        · intro hcon
          rw [hcon.2 u (List.mem_cons_self u l)] at hq
          simp at hq
      · have hsome : acc.1 ≠ none := by
          intro hnone
          apply hlt
          rw [hinv hnone]
          exact lt_trans (by norm_num) (dxTableScore_pos u hq)
        have hstep : pickBestStep acc u = acc := by
          rw [pickBestStep_eq, if_pos hq, if_neg hlt]
        rw [hstep, ih acc hinv]
        constructor
        · intro hcon
          exact absurd hcon.1 hsome
        · intro hcon
          exact absurd hcon.1 hsome
    · have hstep : pickBestStep acc u = acc := by
        rw [pickBestStep_eq, if_neg hq]
      rw [hstep, ih acc hinv]
      constructor
      · intro hcon
        refine ⟨hcon.1, fun t ht => ?_⟩
        rcases List.mem_cons.mp ht with rfl | ht2
        · cases h3 : dxQualifies t
          · rfl
          · exact absurd h3 hq
        · exact hcon.2 t ht2
      · intro hcon
        exact ⟨hcon.1, fun t ht => hcon.2 t (List.mem_cons_of_mem u ht)⟩

/-- C4: pickBestDxGridTable only returns a table with at least 2 data
rows, a detectable header row and a driver header cell, of maximal
heuristic score among qualifying tables; it returns none exactly when no
table qualifies, and then — or when the driver column cannot be mapped —
fetchStandingsGeneric throws instead of returning rows. -/
theorem pickBest_fetch_spec (tables : List DxTable) :
    (∀ t, pickBestDxGridTable tables = some t →
      t ∈ tables ∧ dxQualifies t = true ∧
      (∀ t2 ∈ tables, dxQualifies t2 = true →
        dxTableScore t2 ≤ dxTableScore t)) ∧
    (pickBestDxGridTable tables = none ↔
      ∀ t ∈ tables, dxQualifies t = false) ∧
    (pickBestDxGridTable tables = none →
      fetchStandingsGeneric tables =
        .error "Could not locate the main DevExpress standings table.") ∧
    (∀ t headers0, pickBestDxGridTable tables = some t →
      t.headerCells = some headers0 →
      (mapColumnIndexes (trimTrailingUtilityColumn
        (alignHeadersToData headers0 (t.dataRows.headD []).length)
        (t.dataRows.headD [])).headers).driver < 0 →
      ∃ e, fetchStandingsGeneric tables = .error e) ∧
    (∀ rows, fetchStandingsGeneric tables = .ok rows →
      ∃ t, pickBestDxGridTable tables = some t ∧ dxQualifies t = true) := by
  have hsome : ∀ t, pickBestDxGridTable tables = some t →
      t ∈ tables ∧ dxQualifies t = true ∧
      (∀ t2 ∈ tables, dxQualifies t2 = true →
        dxTableScore t2 ≤ dxTableScore t) := by
    intro t h
    rw [pickBestDxGridTable] at h
    rcases pickBest_fold_some tables (none, (-1 : ℚ)) t h with
      ⟨h1, _⟩ | ⟨h1, h2, h3⟩
    · exact absurd h1 (by simp)
    · refine ⟨h1, h2, fun t2 ht2 hq2 => ?_⟩
      have := (pickBest_fold_mono tables (none, (-1 : ℚ))).2 t2 ht2 hq2
      rw [h3] at this
      exact this
  refine ⟨hsome, ?_, ?_, ?_, ?_⟩
  · rw [pickBestDxGridTable]
    have := pickBest_fold_none tables (none, (-1 : ℚ)) (fun _ => rfl)
    rw [this]
    simp
  · intro h
    rw [fetchStandingsGeneric, h]
  · intro t headers0 h hh hdrv
    rw [fetchStandingsGeneric, h]
    dsimp only
    rw [hh]
    dsimp only
    rw [if_pos hdrv]
    exact ⟨_, rfl⟩
  · intro rows h
    rcases hpick : pickBestDxGridTable tables with _ | t
    · rw [fetchStandingsGeneric, hpick] at h
      exact absurd h (by simp)
    · exact ⟨t, rfl, (hsome t hpick).2.1⟩

/-- C4 witness: with no candidate table, pickBestDxGridTable is none and
fetchStandingsGeneric throws the locate error. -/
theorem pickBest_fetch_spec_witness :
    pickBestDxGridTable ([] : List DxTable) = none ∧
    fetchStandingsGeneric ([] : List DxTable) =
      .error "Could not locate the main DevExpress standings table." :=
  ⟨rfl, (pickBest_fetch_spec []).2.2.1 rfl⟩

/-! ## Claim C10: fetchSimgridStandings driver normalization
(standings.js lines 372-461 and 298-306) -/

/-- standings.js cleanText: collapse whitespace, map NBSP to space,
trim. -/
def replaceNbsp (s : String) : String :=
  ⟨s.data.map (fun c => if c == ' ' then ' ' else c)⟩

def cleanText (t : String) : String := jsTrim (replaceNbsp (jsCollapseWs t))

/-- Unicode regional-indicator symbols U+1F1E6..U+1F1FF. -/
def isRegionalIndicator (c : Char) : Bool :=
  0x1F1E6 ≤ c.toNat && c.toNat ≤ 0x1F1FF

/-- The regexp ^([RI]{2})\s+ (u-flag): two regional indicators followed
by at least one whitespace; the whole greedy match (flag pair plus the
whitespace run) is consumed. -/
def matchLeadingFlag (cs : List Char) : Option (Char × Char × List Char) :=
  match cs with
  | c0 :: c1 :: rest =>
    if isRegionalIndicator c0 && isRegionalIndicator c1 then
      if (rest.takeWhile jsIsWs).isEmpty then none
      else some (c0, c1, rest.dropWhile jsIsWs)
    else none
  | _ => none

/-- Lowercase hexadecimal of a code point (toString(16)). -/
def hexLower (n : ℕ) : String := ⟨Nat.toDigits 16 n⟩

/-- standings.js flagEmojiToTwemojiPng. -/
def flagEmojiToTwemojiPng (flagEmoji : String) : String :=
  if flagEmoji = "" then ""
  else
    let code := jsToLower
      (joinSep "-" (flagEmoji.data.map (fun ch => hexLower ch.toNat)))
    "https://cdnjs.cloudflare.com/ajax/libs/twemoji/14.0.2/72x72/" ++
      code ++ ".png"

/-- The greedy (?:,\d{3})+ loop: consume comma-plus-exactly-three-digit
groups.  (Stopping when the digit run after a comma is not exactly 3
gives the same accept/reject behaviour as the backtracking regexp
engine, because every backtracked alternative leaves a remainder that
starts with a comma or a digit and therefore fails the \s*$ tail.) -/
def parseGroups : List Char → List Char × List Char
  | ',' :: d1 :: d2 :: d3 :: rest =>
    if d1.isDigit && d2.isDigit && d3.isDigit &&
        !(match rest with | r :: _ => r.isDigit | [] => false) then
      let q := parseGroups rest
      (',' :: d1 :: d2 :: d3 :: q.1, q.2)
    else ([], ',' :: d1 :: d2 :: d3 :: rest)
  | cs => ([], cs)

/-- Does the regexp \s(\d{1,3}(?:,\d{3})+)\s*$ match the whole list?
On success, returns the captured group (digits plus comma groups). -/
def ratingSuffixAt (cs : List Char) : Option (List Char) :=
  match cs with
  | w :: rest =>
    if jsIsWs w then
      let p := splitLeadingDigits rest
      if 1 ≤ p.1.length ∧ p.1.length ≤ 3 then
        let g := parseGroups p.2
        if g.1 ≠ [] ∧ g.2.all jsIsWs then some (p.1 ++ g.1) else none
      else none
    else none
  | [] => none

/-- Leftmost match index of the rating regexp, with the captured group.
-/
def ratingSearch : List Char → Option (ℕ × List Char)
  | [] => none
  | c :: rest =>
    match ratingSuffixAt (c :: rest) with
    | some r => some (0, r)
    | none =>
      match ratingSearch rest with
      | some p => some (p.1 + 1, p.2)
      | none => none

/-- driverText.match(/\s(\d{1,3}(?:,\d{3})+)\s*$/): on a match, rating
is the captured group and the driver is the text before the match,
trimmed. -/
def stripRating (driverText : String) : String × String :=
  match ratingSearch driverText.data with
  | some p => (⟨jsTrimList (driverText.data.take p.1)⟩, ⟨p.2⟩)
  | none => (driverText, "")

/-- The driver/rating/countryImg triple extracted from one raw
a.entrant-name text. -/
structure DriverParse where
  driver : String
  rating : String
  countryImg : String
deriving DecidableEq, Repr

/-- Lines 392-405 of standings.js: strip a leading flag pair (slicing
off the greedy match and trimming), convert it to a Twemoji URL, then
strip a trailing comma-grouped rating. -/
def parseSimgridDriver (driverTextRaw : String) : DriverParse :=
  match matchLeadingFlag driverTextRaw.data with
  | some (c0, c1, restChars) =>
    let sr := stripRating ⟨jsTrimList restChars⟩
    { driver := sr.1, rating := sr.2,
      countryImg := flagEmojiToTwemojiPng ⟨[c0, c1]⟩ }
  | none =>
    let sr := stripRating driverTextRaw
    { driver := sr.1, rating := sr.2, countryImg := "" }

/-- standings.js simgridMakeKeyFromText. -/
def simgridMakeKeyFromText (t : String) : String :=
  let s := jsToLower (cleanText t)
  if s = "" then ""
  else if strIncludes s "mclaren" then "mclaren"
  else if strIncludes s "toyota" || strIncludes s "gazoo" then "toyota_gazoo"
  else if strIncludes s "ferrari" then "ferrari"
  else if strIncludes s "porsche" then "porsche"
  else if strIncludes s "bmw" then "bmw"
  else if strIncludes s "mercedes" || strIncludes s "amg" then "mercedes"
  else if strIncludes s "cadillac" then "cadillac"
  else if strIncludes s "peugeot" then "peugeot"
  else if strIncludes s "alpine" then "alpine"
  else if strIncludes s "lamborghini" then "lamborghini"
  else if strIncludes s "aston" then "astonmartin"
  else if strIncludes s "lexus" then "lexus"
  else if strIncludes s "honda" || strIncludes s "acura" then "honda"
  else if strIncludes s "chevrolet" || strIncludes s "corvette" then "corvette"
  else ""

/-- standings.js simgridMakeKeyFromSrc. -/
def simgridMakeKeyFromSrc (src : String) : String :=
  let u := jsToLower src
  if u = "" then ""
  else if strIncludes u "mclaren" then "mclaren"
  else if strIncludes u "toyota" then "toyota_gazoo"
  else if strIncludes u "gazoo" then "toyota_gazoo"
  else if strIncludes u "ferrari" then "ferrari"
  else if strIncludes u "porsche" then "porsche"
  else if strIncludes u "bmw" then "bmw"
  else if strIncludes u "mercedes" || strIncludes u "amg" then "mercedes"
  else if strIncludes u "cadillac" then "cadillac"
  else if strIncludes u "peugeot" then "peugeot"
  else if strIncludes u "alpine" then "alpine"
  else if strIncludes u "lamborghini" then "lamborghini"
  else if strIncludes u "aston" then "astonmartin"
  else if strIncludes u "lexus" then "lexus"
  else if strIncludes u "honda" || strIncludes u "acura" then "honda"
  else if strIncludes u "chevrolet" || strIncludes u "corvette" then "corvette"
  else ""

/-- One SimGrid tbody tr as the cheerio queries see it. -/
structure SimTr where
  posStrong : String
  firstTd : String
  entrantName : String
  carNumber : String
  carImgSrcAttr : Option String
  imgAlt : String
  imgTitle : String
  imgDataBsTitle : String
  cellTitle : String
  carCellText : String
  lastFwBold : String
deriving DecidableEq, Repr

/-- One row of the fetchSimgridStandings result. -/
structure SgRow where
  pos : String
  driver : String
  rating : String
  carNo : String
  className : String
  carImg : String
  carMakeKey : String
  countryImg : String
  racePts : String
  qualiPts : String
  flPts : String
  total : String
  nett : String
  diff : String
deriving DecidableEq, Repr

/-- The body of the table.find("tbody tr").each loop: none when the row
is skipped because its driver text is empty. -/
def simgridRowOf (tr : SimTr) : Option SgRow :=
  let pos := if cleanText tr.posStrong ≠ "" then cleanText tr.posStrong
    else cleanText tr.firstTd
  let dp := parseSimgridDriver (cleanText tr.entrantName)
  let carNo := cleanText tr.carNumber
  let carImg0 := tr.carImgSrcAttr.getD ""
  let carImg := if carImg0 ≠ "" ∧ startsWithSeq "/".data carImg0.data then
      "https://www.thesimgrid.com" ++ carImg0
    else carImg0
  let hint :=
    if cleanText tr.imgAlt ≠ "" then cleanText tr.imgAlt
    else if cleanText tr.imgTitle ≠ "" then cleanText tr.imgTitle
    else if cleanText tr.imgDataBsTitle ≠ "" then cleanText tr.imgDataBsTitle
    else if cleanText tr.cellTitle ≠ "" then cleanText tr.cellTitle
    else cleanText tr.carCellText
  let carMakeKey := if simgridMakeKeyFromText hint ≠ "" then
      simgridMakeKeyFromText hint
    else simgridMakeKeyFromSrc carImg
  let pts := if cleanText tr.lastFwBold ≠ "" then cleanText tr.lastFwBold
    else "0"
  if dp.driver = "" then none
  else some
    { pos := pos
      driver := dp.driver
      rating := dp.rating
      carNo := carNo
      className := ""
      carImg := carImg
      carMakeKey := carMakeKey
      countryImg := dp.countryImg
      racePts := ""
      qualiPts := ""
      flPts := ""
      total := pts
      nett := pts
      diff := "" }

/-- standings.js fetchSimgridStandings over the parsed tr data (the
table-presence check and HTTP layer live outside this model). -/
def fetchSimgridStandings (trs : List SimTr) : List SgRow :=
  trs.filterMap simgridRowOf

/-- The shape \d{1,3}(?:,\d{3})+ of a comma-grouped rating. -/
def groupsOnly : List Char → Bool
  | [] => true
  | ',' :: d1 :: d2 :: d3 :: rest =>
    d1.isDigit && d2.isDigit && d3.isDigit && groupsOnly rest
  | _ => false

def isCommaGroupedRating (r : List Char) : Bool :=
  let p := splitLeadingDigits r
  decide (1 ≤ p.1.length) && decide (p.1.length ≤ 3) &&
    !(p.2.isEmpty) && groupsOnly p.2

theorem parseGroups_append (cs : List Char) :
    (parseGroups cs).1 ++ (parseGroups cs).2 = cs := by
  induction cs using parseGroups.induct with
  | case1 d1 d2 d3 rest hcond ih =>
    simp only [parseGroups, hcond, if_pos]
    simpa using ih
  | case2 d1 d2 d3 rest hcond =>
    simp only [parseGroups, hcond, if_neg]
    rfl
  | case3 cs h =>
    rw [parseGroups.eq_def]
    split
    · exact ((h _ _ _ _ rfl).elim)
    · rfl

theorem parseGroups_groupsOnly (cs : List Char) :
    groupsOnly (parseGroups cs).1 = true := by
  induction cs using parseGroups.induct with
  | case1 d1 d2 d3 rest hcond ih =>
    simp only [parseGroups, hcond, if_pos]
    simp only [Bool.and_eq_true] at hcond
    simp only [groupsOnly, Bool.and_eq_true]
    exact ⟨⟨⟨hcond.1.1.1, hcond.1.1.2⟩, hcond.1.2⟩, ih⟩
  | case2 d1 d2 d3 rest hcond =>
    simp only [parseGroups, hcond, if_neg]
    rfl
  | case3 cs h =>
    rw [parseGroups.eq_def]
    split
    · exact ((h _ _ _ _ rfl).elim)
    · rfl

theorem parseGroups_head (cs : List Char) :
    (parseGroups cs).1 = [] ∨ ∃ t, (parseGroups cs).1 = ',' :: t := by
  induction cs using parseGroups.induct with
  | case1 d1 d2 d3 rest hcond _ =>
    simp only [parseGroups, hcond, if_pos]
    exact Or.inr ⟨_, rfl⟩
  | case2 d1 d2 d3 rest hcond =>
    simp only [parseGroups, hcond, if_neg]
    exact Or.inl rfl
  | case3 cs h =>
    rw [parseGroups.eq_def]
    split
    · exact ((h _ _ _ _ rfl).elim)
    · exact Or.inl rfl

theorem splitLeadingDigits_append (cs : List Char) :
    (splitLeadingDigits cs).1 ++ (splitLeadingDigits cs).2 = cs := by
  induction cs with
  | nil => rfl
  | cons c rest ih =>
    rw [splitLeadingDigits]
    by_cases h : c.isDigit = true
    · simp only [h, if_pos]
      simpa using ih
    · simp only [h, if_neg, Bool.false_eq_true, not_false_iff]
      rfl

theorem splitLeadingDigits_all (cs : List Char) :
    (splitLeadingDigits cs).1.all Char.isDigit = true := by
  induction cs with
  | nil => rfl
  | cons c rest ih =>
    rw [splitLeadingDigits]
    by_cases h : c.isDigit = true
    · simp only [h, if_pos]
      simpa [h] using ih
    · simp only [h, if_neg, Bool.false_eq_true, not_false_iff]
      rfl

theorem splitLeadingDigits_of_parts (ds cs : List Char)
    (hds : ds.all Char.isDigit = true)
    (hcs : cs = [] ∨ ∃ c t, cs = c :: t ∧ c.isDigit = false) :
    splitLeadingDigits (ds ++ cs) = (ds, cs) := by
  induction ds with
  | nil =>
    rcases hcs with rfl | ⟨c, t, rfl, hc⟩
    · rfl
    · rw [List.nil_append, splitLeadingDigits]
      simp [hc]
  | cons d ds2 ih =>
    simp only [List.all_cons, Bool.and_eq_true] at hds
    rw [List.cons_append, splitLeadingDigits]
    simp only [hds.1, if_pos]
    rw [ih hds.2]

theorem ratingSuffixAt_decomp (cs r : List Char)
    (h : ratingSuffixAt cs = some r) :
    ∃ w trail, cs = w :: (r ++ trail) ∧ jsIsWs w = true ∧
      isCommaGroupedRating r = true ∧ trail.all jsIsWs = true := by
  rcases cs with _ | ⟨w, rest⟩
  · simp [ratingSuffixAt] at h
  · rw [ratingSuffixAt] at h
    by_cases hw : jsIsWs w = true
    · rw [if_pos hw] at h
      by_cases hp : 1 ≤ (splitLeadingDigits rest).1.length ∧
          (splitLeadingDigits rest).1.length ≤ 3
      · rw [if_pos hp] at h
        by_cases hg : (parseGroups (splitLeadingDigits rest).2).1 ≠ [] ∧
            (parseGroups (splitLeadingDigits rest).2).2.all jsIsWs = true
        · rw [if_pos hg, Option.some.injEq] at h
          subst h
          refine ⟨w, (parseGroups (splitLeadingDigits rest).2).2, ?_, hw, ?_, hg.2⟩
          · have h1 := splitLeadingDigits_append rest
            have h2 := parseGroups_append (splitLeadingDigits rest).2
            rw [List.append_assoc, h2, h1]
          · rw [isCommaGroupedRating]
            have hsplit : splitLeadingDigits
                ((splitLeadingDigits rest).1 ++
                  (parseGroups (splitLeadingDigits rest).2).1) =
                ((splitLeadingDigits rest).1,
                  (parseGroups (splitLeadingDigits rest).2).1) := by
              apply splitLeadingDigits_of_parts
              · exact splitLeadingDigits_all rest
              · rcases parseGroups_head (splitLeadingDigits rest).2 with h3 | ⟨t, h3⟩
                · exact absurd h3 hg.1
                · exact Or.inr ⟨',', t, h3, by decide⟩
            rw [hsplit]
            simp only [Bool.and_eq_true, decide_eq_true_eq]
            refine ⟨⟨⟨hp.1, hp.2⟩, ?_⟩, parseGroups_groupsOnly _⟩
            rcases parseGroups_head (splitLeadingDigits rest).2 with h3 | ⟨t, h3⟩
            · exact absurd h3 hg.1
            · rw [h3]
              rfl
        · rw [if_neg hg] at h
          exact absurd h (by simp)
      · rw [if_neg hp] at h
        exact absurd h (by simp)
    · rw [if_neg hw] at h
      exact absurd h (by simp)

theorem ratingSearch_decomp (cs : List Char) :
    ∀ i r, ratingSearch cs = some (i, r) →
      ratingSuffixAt (cs.drop i) = some r := by
  induction cs with
  | nil => intro i r h; simp [ratingSearch] at h
  | cons c rest ih =>
    intro i r h
    rw [ratingSearch] at h
    cases hs : ratingSuffixAt (c :: rest) with
    | some r2 =>
      rw [hs] at h
      simp only [Option.some.injEq, Prod.mk.injEq] at h
      rw [← h.1, ← h.2, List.drop_zero]
      exact hs
    | none =>
      rw [hs] at h
      cases hr : ratingSearch rest with
      | none => rw [hr] at h; simp at h
      | some p =>
        rw [hr] at h
        simp only [Option.some.injEq, Prod.mk.injEq] at h
        rw [← h.1, ← h.2]
        rw [List.drop_succ_cons]
        exact ih p.1 p.2 hr

theorem stripRating_spec (s : String) (h : (stripRating s).2 ≠ "") :
    ∃ (pre : List Char) (w : Char) (r trail : List Char),
      s.data = pre ++ w :: (r ++ trail) ∧ jsIsWs w = true ∧
      isCommaGroupedRating r = true ∧ trail.all jsIsWs = true ∧
      (stripRating s).2 = ⟨r⟩ ∧ (stripRating s).1 = ⟨jsTrimList pre⟩ := by
  cases hr : ratingSearch s.data with
  | none =>
    rw [stripRating, hr] at h
    exact absurd rfl h
  | some p =>
    have hsuf := ratingSearch_decomp s.data p.1 p.2 (by rw [hr])
    obtain ⟨w, trail, hdec, hw, hgr, htr⟩ :=
      ratingSuffixAt_decomp (s.data.drop p.1) p.2 hsuf
    refine ⟨s.data.take p.1, w, p.2, trail, ?_, hw, hgr, htr, ?_, ?_⟩
    · conv_lhs => rw [← List.take_append_drop p.1 s.data]
      rw [hdec]
    · rw [stripRating, hr]
    · rw [stripRating, hr]

theorem simgridRowOf_spec (tr : SimTr) :
    (simgridRowOf tr = none ↔
      (parseSimgridDriver (cleanText tr.entrantName)).driver = "") ∧
    (∀ row, simgridRowOf tr = some row →
      row.driver = (parseSimgridDriver (cleanText tr.entrantName)).driver ∧
      row.rating = (parseSimgridDriver (cleanText tr.entrantName)).rating ∧
      row.countryImg =
        (parseSimgridDriver (cleanText tr.entrantName)).countryImg) := by
  unfold simgridRowOf
  by_cases h : (parseSimgridDriver (cleanText tr.entrantName)).driver = ""
  · simp [h]
  · simp only [h, if_neg, not_false_iff]
    constructor
    · simp [h]
    · intro row hrow
      simp only [Option.some.injEq] at hrow
      rw [← hrow]
      exact ⟨rfl, rfl, rfl⟩

theorem fetchSimgrid_length (trs : List SimTr) :
    (fetchSimgridStandings trs).length =
      (trs.filter (fun tr =>
        (parseSimgridDriver (cleanText tr.entrantName)).driver != "")).length := by
  induction trs with
  | nil => rfl
  | cons tr rest ih =>
    rw [fetchSimgridStandings, List.filterMap_cons, List.filter_cons]
    by_cases h : (parseSimgridDriver (cleanText tr.entrantName)).driver = ""
    · have hnone : simgridRowOf tr = none := ((simgridRowOf_spec tr).1).mpr h
      rw [hnone]
      have hb : ((parseSimgridDriver (cleanText tr.entrantName)).driver != "") =
          false := by
        simp [h]
      rw [hb]
      exact ih
    · cases hsome : simgridRowOf tr with
      | none => exact absurd (((simgridRowOf_spec tr).1).mp hsome) h
      | some row =>
        have hb : ((parseSimgridDriver (cleanText tr.entrantName)).driver != "") =
            true := by
          simp [h]
        rw [hb]
        simp only [if_pos, List.length_cons]
        rw [← fetchSimgridStandings, ih]

/-- C10: SimGrid driver-name normalization.  (1) When the cleaned driver
text starts with two regional-indicator characters followed by
whitespace, parseSimgridDriver strips that greedy flag match, converts
the pair into the countryImg Twemoji URL, and applies the rating strip
to the remaining trimmed text.  (2) The Twemoji URL is built from the
lowercase hex codepoints of the two characters joined by a dash.
(3) Whenever a rating is extracted, the original text decomposes as the
kept prefix, one whitespace, the comma-grouped rating, and trailing
whitespace, the driver being the trimmed prefix — so the driver string
contains neither the flag pair nor the rating.  (4) Every row returned
by fetchSimgridStandings has a nonempty driver; rows whose parsed
driver is empty are skipped (the output length is the count of rows
with nonempty parsed driver), and each kept row's driver, rating and
countryImg come from parseSimgridDriver of the cleaned entrant text. -/
theorem fetchSimgrid_driver_normalization :
    (∀ (c0 c1 w : Char) (rest : List Char),
      isRegionalIndicator c0 = true → isRegionalIndicator c1 = true →
      jsIsWs w = true →
      parseSimgridDriver ⟨c0 :: c1 :: w :: rest⟩ =
        { driver := (stripRating ⟨jsTrimList ((w :: rest).dropWhile jsIsWs)⟩).1
          rating := (stripRating ⟨jsTrimList ((w :: rest).dropWhile jsIsWs)⟩).2
          countryImg := flagEmojiToTwemojiPng ⟨[c0, c1]⟩ }) ∧
    (∀ c0 c1 : Char,
      flagEmojiToTwemojiPng ⟨[c0, c1]⟩ =
        "https://cdnjs.cloudflare.com/ajax/libs/twemoji/14.0.2/72x72/" ++
          jsToLower (hexLower c0.toNat ++ "-" ++ hexLower c1.toNat) ++ ".png") ∧
    (∀ s : String, (stripRating s).2 ≠ "" →
      ∃ (pre : List Char) (w : Char) (r trail : List Char),
        s.data = pre ++ w :: (r ++ trail) ∧ jsIsWs w = true ∧
        isCommaGroupedRating r = true ∧ trail.all jsIsWs = true ∧
        (stripRating s).2 = ⟨r⟩ ∧ (stripRating s).1 = ⟨jsTrimList pre⟩) ∧
    (∀ trs : List SimTr,
      (∀ row ∈ fetchSimgridStandings trs, row.driver ≠ "") ∧
      (fetchSimgridStandings trs).length =
        (trs.filter (fun tr =>
          (parseSimgridDriver (cleanText tr.entrantName)).driver != "")).length) ∧
    (∀ tr : SimTr,
      (simgridRowOf tr = none ↔
        (parseSimgridDriver (cleanText tr.entrantName)).driver = "") ∧
      ∀ row, simgridRowOf tr = some row →
        row.driver = (parseSimgridDriver (cleanText tr.entrantName)).driver ∧
        row.rating = (parseSimgridDriver (cleanText tr.entrantName)).rating ∧
        row.countryImg =
          (parseSimgridDriver (cleanText tr.entrantName)).countryImg) := by
  refine ⟨?_, ?_, ?_, ?_, ?_⟩
  · intro c0 c1 w rest h0 h1 hw
    have hm : matchLeadingFlag (c0 :: c1 :: w :: rest) =
        some (c0, c1, (w :: rest).dropWhile jsIsWs) := by
      simp [matchLeadingFlag, h0, h1, List.takeWhile_cons, hw]
    unfold parseSimgridDriver
    rw [show (⟨c0 :: c1 :: w :: rest⟩ : String).data =
        c0 :: c1 :: w :: rest from rfl, hm]
  · intro c0 c1
    have hne : (⟨[c0, c1]⟩ : String) ≠ "" := by
      intro hcon
      exact List.cons_ne_nil c0 [c1] (congrArg String.data hcon)
    rw [flagEmojiToTwemojiPng, if_neg hne]
    rfl
  · intro s h
    exact stripRating_spec s h
  · intro trs
    constructor
    · intro row hrow
      rw [fetchSimgridStandings, List.mem_filterMap] at hrow
      obtain ⟨tr, _, hsome⟩ := hrow
      have hfields := (simgridRowOf_spec tr).2 row hsome
      intro hzero
      have hdrv : (parseSimgridDriver (cleanText tr.entrantName)).driver = "" := by
        rw [← hfields.1, hzero]
      rw [((simgridRowOf_spec tr).1).mpr hdrv] at hsome
      exact Option.noConfusion hsome
    · exact fetchSimgrid_length trs
  · intro tr
    exact simgridRowOf_spec tr

theorem fetchSimgrid_driver_normalization_witness :
    parseSimgridDriver ⟨[Char.ofNat 0x1F1E6, Char.ofNat 0x1F1FA, ' ',
        'B', 'o', 'b', ' ', '2', ',', '2', '0', '2']⟩ =
      { driver := "Bob"
        rating := "2,202"
        countryImg :=
          "https://cdnjs.cloudflare.com/ajax/libs/twemoji/14.0.2/72x72/1f1e6-1f1fa.png" } := by
  have h := fetchSimgrid_driver_normalization.1 (Char.ofNat 0x1F1E6)
      (Char.ofNat 0x1F1FA) ' '
      ['B', 'o', 'b', ' ', '2', ',', '2', '0', '2']
      (by decide) (by decide) (by decide)
  rw [h]
  decide
